import Mathlib

/-!
Verification of the skydive time-versioned property graph core against its
natural-language specification.  The repository slice at hand contains the
integration tests (`tests/`) and the k8s node probe
(`topology/probes/k8s/node.go`); the graph store, metadata indexer,
traversal engine and metrics aggregator themselves are not part of the
slice, so those components are modelled from the specification text, while
`node.go` is embedded directly from its source.
-/

/-- Metadata values: scalars, sequences or nested documents
(spec section 3: "values may be scalars, sequences, or nested documents"). -/
inductive Value where
  | vInt (i : Int)
  | vStr (s : String)
  | vBool (b : Bool)
  | vSeq (elems : List Value)
  | vMap (fields : List (String × Value))
deriving Repr

mutual

def decEqValue : (a b : Value) → Decidable (a = b)
  | .vInt a, .vInt b =>
    match decEq a b with
    | isTrue h => isTrue (by rw [h])
    | isFalse h => isFalse (fun hh => h (by cases hh; rfl))
  | .vStr a, .vStr b =>
    match decEq a b with
    | isTrue h => isTrue (by rw [h])
    | isFalse h => isFalse (fun hh => h (by cases hh; rfl))
  | .vBool a, .vBool b =>
    match decEq a b with
    | isTrue h => isTrue (by rw [h])
    | isFalse h => isFalse (fun hh => h (by cases hh; rfl))
  | .vSeq a, .vSeq b =>
    match decEqValueList a b with
    | isTrue h => isTrue (by rw [h])
    | isFalse h => isFalse (fun hh => h (by cases hh; rfl))
  | .vMap a, .vMap b =>
    match decEqFieldList a b with
    | isTrue h => isTrue (by rw [h])
    | isFalse h => isFalse (fun hh => h (by cases hh; rfl))
  | .vInt _, .vStr _ => isFalse (fun h => by cases h)
  | .vInt _, .vBool _ => isFalse (fun h => by cases h)
  | .vInt _, .vSeq _ => isFalse (fun h => by cases h)
  | .vInt _, .vMap _ => isFalse (fun h => by cases h)
  | .vStr _, .vInt _ => isFalse (fun h => by cases h)
  | .vStr _, .vBool _ => isFalse (fun h => by cases h)
  | .vStr _, .vSeq _ => isFalse (fun h => by cases h)
  | .vStr _, .vMap _ => isFalse (fun h => by cases h)
  | .vBool _, .vInt _ => isFalse (fun h => by cases h)
  | .vBool _, .vStr _ => isFalse (fun h => by cases h)
  | .vBool _, .vSeq _ => isFalse (fun h => by cases h)
  | .vBool _, .vMap _ => isFalse (fun h => by cases h)
  | .vSeq _, .vInt _ => isFalse (fun h => by cases h)
  | .vSeq _, .vStr _ => isFalse (fun h => by cases h)
  | .vSeq _, .vBool _ => isFalse (fun h => by cases h)
  | .vSeq _, .vMap _ => isFalse (fun h => by cases h)
  | .vMap _, .vInt _ => isFalse (fun h => by cases h)
  | .vMap _, .vStr _ => isFalse (fun h => by cases h)
  | .vMap _, .vBool _ => isFalse (fun h => by cases h)
  | .vMap _, .vSeq _ => isFalse (fun h => by cases h)

def decEqValueList : (a b : List Value) → Decidable (a = b)
  | [], [] => isTrue rfl
  | [], _ :: _ => isFalse (fun h => by cases h)
  | _ :: _, [] => isFalse (fun h => by cases h)
  | a :: as, b :: bs =>
    match decEqValue a b, decEqValueList as bs with
    | isTrue h1, isTrue h2 => isTrue (by rw [h1, h2])
    | isFalse h1, _ => isFalse (fun hh => h1 (by cases hh; rfl))
    | _, isFalse h2 => isFalse (fun hh => h2 (by cases hh; rfl))

def decEqFieldList : (a b : List (String × Value)) → Decidable (a = b)
  | [], [] => isTrue rfl
  | [], _ :: _ => isFalse (fun h => by cases h)
  | _ :: _, [] => isFalse (fun h => by cases h)
  | (k, v) :: as, (k2, v2) :: bs =>
    match decEq k k2, decEqValue v v2, decEqFieldList as bs with
    | isTrue h1, isTrue h2, isTrue h3 => isTrue (by rw [h1, h2, h3])
    | isFalse h1, _, _ => isFalse (fun hh => h1 (by cases hh; rfl))
    | _, isFalse h2, _ => isFalse (fun hh => h2 (by cases hh; rfl))
    | _, _, isFalse h3 => isFalse (fun hh => h3 (by cases hh; rfl))

end

instance : DecidableEq Value := decEqValue

/-- Look up a top-level field of a metadata document. -/
def lookupField (fields : List (String × Value)) (k : String) : Option Value :=
  (fields.find? (fun p => p.1 == k)).map (fun p => p.2)

/-- Resolve a dot-path (given as its list of segments) inside a value:
descend through nested documents segment by segment. -/
def getPath (v : Value) (path : List String) : Option Value :=
  match path, v with
  | [], _ => some v
  | k :: ks, Value.vMap fields =>
    match lookupField fields k with
    | some v2 => getPath v2 ks
    | none => none
  | _ :: _, _ => none

/-- Resolve a dot-path against a top-level metadata document. -/
def getAt (meta : List (String × Value)) (path : List String) : Option Value :=
  getPath (Value.vMap meta) path

/-- Set one top-level field of a metadata document, replacing in place when
the key is already present, appending otherwise. -/
def setField (m : List (String × Value)) (k : String) (v : Value) :
    List (String × Value) :=
  if m.any (fun p => p.1 == k) then
    m.map (fun p => if p.1 == k then (k, v) else p)
  else
    m ++ [(k, v)]

/-- Merge a metadata patch into a document, key by key, in patch order
(spec section 3: "Metadata updates are full or partial merges"). -/
def mergeFields (m patch : List (String × Value)) : List (String × Value) :=
  patch.foldl (fun acc kv => setField acc kv.1 kv.2) m

/-!
## Graph store history model

Modelled from the spec: the graph store implementation is not part of the
repository slice (only its integration tests are), so the history log and
its point-in-time projection are modelled from spec sections 3 and 4.1:
"The live Graph Store is a materialized projection of the history log as
of now; a historical query reconstructs the projection as of an arbitrary
past instant by replaying/filtering the log".
-/

/-- One accepted mutation of the history log (spec section 3,
"History entry"): node created, metadata updated, node deleted, carrying
the affected identifier and the mutation timestamp. -/
inductive GraphOp where
  | addNode (id host : String) (meta : List (String × Value)) (ts : Nat)
  | updateNode (id : String) (patch : List (String × Value)) (ts : Nat)
  | delNode (id : String) (ts : Nat)
deriving DecidableEq, Repr

def GraphOp.nid : GraphOp → String
  | .addNode id _ _ _ => id
  | .updateNode id _ _ => id
  | .delNode id _ => id

def GraphOp.ts : GraphOp → Nat
  | .addNode _ _ _ ts => ts
  | .updateNode _ _ ts => ts
  | .delNode _ ts => ts

def GraphOp.isAdd : GraphOp → Bool
  | .addNode _ _ _ _ => true
  | _ => false

def GraphOp.isUpd : GraphOp → Bool
  | .updateNode _ _ _ => true
  | _ => false

def GraphOp.isDel : GraphOp → Bool
  | .delNode _ _ => true
  | _ => false

def GraphOp.patchOf : GraphOp → List (String × Value)
  | .updateNode _ p _ => p
  | _ => []

/-- A node record of the projection (spec section 3): identifier, host,
metadata document, creation, last-update and optional deletion timestamp. -/
structure NodeRec where
  id : String
  host : String
  metadata : List (String × Value)
  createdAt : Nat
  updatedAt : Nat
  deletedAt : Option Nat
deriving DecidableEq, Repr

/-- Fresh record for a newly created node. -/
def mkRec (id host : String) (meta : List (String × Value)) (ts : Nat) : NodeRec :=
  ⟨id, host, meta, ts, ts, none⟩

/-- Apply a metadata patch to a record; a no-op once the node is deleted
(after deletion an entity is only preserved in history). -/
def updRec (n : NodeRec) (patch : List (String × Value)) (ts : Nat) : NodeRec :=
  if n.deletedAt.isNone then
    ⟨n.id, n.host, mergeFields n.metadata patch, n.createdAt, ts, none⟩
  else n

/-- Mark a record deleted; idempotent (spec section 4.1: deletion of an
already absent entity is a silent no-op). -/
def delRec (n : NodeRec) (ts : Nat) : NodeRec :=
  if n.deletedAt.isNone then
    ⟨n.id, n.host, n.metadata, n.createdAt, n.updatedAt, some ts⟩
  else n

/-- Effect of one history entry on one entity's record. -/
def stepNode : Option NodeRec → GraphOp → Option NodeRec
  | none, .addNode id host meta ts => some (mkRec id host meta ts)
  | some n, .addNode _ _ _ _ => some n
  | some n, .updateNode _ patch ts => some (updRec n patch ts)
  | none, .updateNode _ _ _ => none
  | some n, .delNode _ ts => some (delRec n ts)
  | none, .delNode _ _ => none

/-- Effect of one history entry on the whole projection (duplicate
creation is a ConflictIgnored no-op, spec section 7). -/
def applyOp (s : List NodeRec) : GraphOp → List NodeRec
  | .addNode id host meta ts =>
    if s.any (fun n => n.id == id) then s else s ++ [mkRec id host meta ts]
  | .updateNode id patch ts =>
    s.map (fun n => if n.id == id then updRec n patch ts else n)
  | .delNode id ts =>
    s.map (fun n => if n.id == id then delRec n ts else n)

/-- Projection of the history log as of instant `T`: replay every entry
whose timestamp is at most `T`, in log order. -/
def replayAt (log : List GraphOp) (T : Nat) : List NodeRec :=
  (log.filter (fun op => op.ts ≤ T)).foldl applyOp []

/-- The record an entity has in the projection as of `T` (still carrying
its deletion mark, as history preserves deleted entities). -/
def nodeAt (log : List GraphOp) (id : String) (T : Nat) : Option NodeRec :=
  (replayAt log T).find? (fun n => n.id == id)

/-- Whether a time-context query considers the entity present at `T`. -/
def presentAt (log : List GraphOp) (id : String) (T : Nat) : Bool :=
  match nodeAt log id T with
  | some n => n.deletedAt.isNone
  | none => false

/-- All history entries concerning one identifier, in log order. -/
def opsOf (log : List GraphOp) (id : String) : List GraphOp :=
  log.filter (fun op => op.nid == id)

/-- Creation entry of an identifier. -/
def creationOp (log : List GraphOp) (id : String) : Option GraphOp :=
  (opsOf log id).find? GraphOp.isAdd

/-- Creation timestamp of an identifier, read off the history log. -/
def creationTs (log : List GraphOp) (id : String) : Option Nat :=
  (creationOp log id).map GraphOp.ts

/-- Deletion timestamp of an identifier, read off the history log. -/
def deletionTs (log : List GraphOp) (id : String) : Option Nat :=
  ((opsOf log id).find? GraphOp.isDel).map GraphOp.ts

/-- The spec's presence criterion (section 4.1): "an entity is considered
present at instant T iff its creation timestamp ≤ T and (its deletion
timestamp is absent or > T)". -/
def presentSpec (log : List GraphOp) (id : String) (T : Nat) : Bool :=
  match creationTs log id, deletionTs log id with
  | some tc, some td => tc ≤ T && T < td
  | some tc, none => tc ≤ T
  | none, _ => false

/-- The metadata patches applied to an identifier up to instant `T`,
in application order. -/
def patchesAt (log : List GraphOp) (id : String) (T : Nat) :
    List (List (String × Value)) :=
  ((opsOf log id).filter (fun op => op.isUpd && op.ts ≤ T)).map GraphOp.patchOf

/-- The spec's metadata criterion (section 4.1): "metadata as of T is the
merge of all patches with timestamp ≤ T in application order". -/
def metaSpec (log : List GraphOp) (id : String) (T : Nat) :
    Option (List (String × Value)) :=
  match creationOp log id with
  | some (GraphOp.addNode _ _ m0 tc) =>
    if tc ≤ T then some ((patchesAt log id T).foldl mergeFields m0) else none
  | _ => none

/-- Well-formed per-entity history tail: updates, optionally closed by a
single deletion (identifiers are never reused after deletion,
spec section 3). -/
def shapeTail : List GraphOp → Bool
  | [] => true
  | op :: rest => if op.isUpd then shapeTail rest else op.isDel && rest.isEmpty

/-- Well-formed per-entity history: empty, or a creation followed by a
well-formed tail. -/
def shapeOps : List GraphOp → Bool
  | [] => true
  | op :: rest => op.isAdd && shapeTail rest

/-- Record lookup by identifier in a projection. -/
def lookupRec (s : List NodeRec) (id : String) : Option NodeRec :=
  s.find? (fun n => n.id == id)

/-!
## Traversal query engine

Modelled from the spec: the traversal engine is not part of the repository
slice, so the step vocabulary and its semantics are modelled from the table
of spec section 4.4, with the edge-step conventions (`InE`/`InV` resolving
a node's incoming edges and then their parents) fixed by the integration
tests (`TestOVSOwnershipLink`).
-/

/-- An edge record (spec section 3): identifier, ordered endpoint pair
(parent, child) held as weak references, and metadata. -/
structure EdgeRec where
  eid : String
  parent : String
  child : String
  metadata : List (String × Value)
deriving DecidableEq, Repr

/-- A metric record (spec section 3): start and end timestamps plus
counter fields. -/
structure MetricRec where
  mstart : Nat
  mlast : Nat
  txPackets : Int
  rxPackets : Int
deriving DecidableEq, Repr

/-- A read snapshot of the store: nodes, edges and the per-node
append-only metric sequences. -/
structure Snap where
  nodes : List NodeRec
  edges : List EdgeRec
  nodeMetrics : List (String × List MetricRec)
deriving DecidableEq, Repr

/-- Filter literals for `Has`: plain equality, negated equality (`Ne`),
and set membership (`Within`) — spec section 4.4. -/
inductive FilterVal where
  | feq (v : Value)
  | fne (v : Value)
  | fwithin (vs : List Value)
deriving DecidableEq, Repr

/-- Equality test of a stored metadata value against a query literal.
A stored sequence also matches when some element equals the literal
(behaviour fixed by `TestQueryMetadata`, which finds `A.B.D = [1,2,3]`
via `Has("A.B.D", 1)`).  Comparison is total: a type mismatch yields
`false`, never an error (spec sections 4.4 and 7). -/
def valueMatches (stored lit : Value) : Bool :=
  stored == lit ||
    (match stored with
     | Value.vSeq elems => elems.any (fun e => e == lit)
     | _ => false)

/-- One `Has` pair evaluated at a metadata document. -/
def filterMatches (meta : List (String × Value)) (path : List String) :
    FilterVal → Bool
  | FilterVal.feq v =>
    match getAt meta path with
    | some sv => valueMatches sv v
    | none => false
  | FilterVal.fne v =>
    match getAt meta path with
    | some sv => !(valueMatches sv v)
    | none => true
  | FilterVal.fwithin vs =>
    match getAt meta path with
    | some sv => vs.any (fun v => valueMatches sv v)
    | none => false

/-- Conjunction of all `Has` pairs at a node (spec section 4.4). -/
def nodeMatches (n : NodeRec) (pairs : List (List String × FilterVal)) : Bool :=
  pairs.all (fun p => filterMatches n.metadata p.1 p.2)

/-- Conjunction of all `Has` pairs at an edge. -/
def edgeMatches (e : EdgeRec) (pairs : List (List String × FilterVal)) : Bool :=
  pairs.all (fun p => filterMatches e.metadata p.1 p.2)

/-- Traversal steps of a parsed query chain (spec section 4.4). -/
inductive Step where
  | vStep
  | hasStep (pairs : List (List String × FilterVal))
  | hasKeyStep (path : List String)
  | outStep (pairs : List (List String × FilterVal))
  | inStep (pairs : List (List String × FilterVal))
  | bothStep (pairs : List (List String × FilterVal))
  | inEStep (pairs : List (List String × FilterVal))
  | inVStep (pairs : List (List String × FilterVal))
  | dedupStep
  | metricsStep
  | aggregatesStep
  | sumStep
deriving DecidableEq, Repr

/-- A traversal result set: the implicit root, a node set, an edge set,
per-node metric sequences, an aggregated series, or a single reduced
metric record. -/
inductive TravResult where
  | startR
  | nodesR (l : List NodeRec)
  | edgesR (l : List EdgeRec)
  | metricsR (l : List (List MetricRec))
  | aggR (l : List MetricRec)
  | metricR (m : MetricRec)
deriving DecidableEq, Repr

/-- Query evaluation errors (spec section 7): `notFound` for a
"get exactly one" form matching nothing, `typeErr` for a step applied to
an incompatible result-set kind. -/
inductive QErr where
  | notFound
  | typeErr
deriving DecidableEq, Repr

/-- The live nodes of a snapshot (current projection). -/
def liveNodes (s : Snap) : List NodeRec :=
  s.nodes.filter (fun n => n.deletedAt.isNone)

/-- Resolve an edge endpoint reference against the live projection
(weak reference: identifier plus lookup, spec section 3). -/
def nodeById (s : Snap) (id : String) : Option NodeRec :=
  (liveNodes s).find? (fun n => n.id == id)

/-- `Out(filters…)`: endpoints of outgoing edges, filtered. -/
def outNodes (s : Snap) (pairs : List (List String × FilterVal))
    (cur : List NodeRec) : List NodeRec :=
  (cur.map (fun n =>
    (s.edges.filter (fun e => e.parent == n.id)).filterMap (fun e =>
      match nodeById s e.child with
      | some m => if nodeMatches m pairs then some m else none
      | none => none))).flatten

/-- `In(filters…)`: endpoints of incoming edges, filtered. -/
def inNodes (s : Snap) (pairs : List (List String × FilterVal))
    (cur : List NodeRec) : List NodeRec :=
  (cur.map (fun n =>
    (s.edges.filter (fun e => e.child == n.id)).filterMap (fun e =>
      match nodeById s e.parent with
      | some m => if nodeMatches m pairs then some m else none
      | none => none))).flatten

/-- `Both(filters…)`: endpoints reachable in either direction. -/
def bothNodes (s : Snap) (pairs : List (List String × FilterVal))
    (cur : List NodeRec) : List NodeRec :=
  inNodes s pairs cur ++ outNodes s pairs cur

/-- `InE(filters…)`: incoming edges of the current node set. -/
def inEdges (s : Snap) (pairs : List (List String × FilterVal))
    (cur : List NodeRec) : List EdgeRec :=
  (cur.map (fun n =>
    s.edges.filter (fun e => e.child == n.id && edgeMatches e pairs))).flatten

/-- `InV(filters…)`: for an incoming-edge set, the parent endpoints
(the nodes the relation points from; convention fixed by
`TestOVSOwnershipLink`). -/
def inVNodes (s : Snap) (pairs : List (List String × FilterVal))
    (cur : List EdgeRec) : List NodeRec :=
  cur.filterMap (fun e =>
    match nodeById s e.parent with
    | some m => if nodeMatches m pairs then some m else none
    | none => none)

/-- Helper for `Dedup()` on nodes: walk the set once, keeping the first
occurrence of every identifier not already seen. -/
def dedupNodesAux (seen : List String) : List NodeRec → List NodeRec
  | [] => []
  | n :: rest =>
    if seen.contains n.id then dedupNodesAux seen rest
    else n :: dedupNodesAux (n.id :: seen) rest

/-- `Dedup()` on nodes: keep the first occurrence of every identifier,
preserving first-seen order (spec section 4.4). -/
def dedupNodes (l : List NodeRec) : List NodeRec := dedupNodesAux [] l

/-- Helper for `Dedup()` on edges. -/
def dedupEdgesAux (seen : List String) : List EdgeRec → List EdgeRec
  | [] => []
  | e :: rest =>
    if seen.contains e.eid then dedupEdgesAux seen rest
    else e :: dedupEdgesAux (e.eid :: seen) rest

/-- `Dedup()` on edges. -/
def dedupEdges (l : List EdgeRec) : List EdgeRec := dedupEdgesAux [] l

/-- Stored metric sequence of one node. -/
def metricsOf (s : Snap) (id : String) : List MetricRec :=
  match s.nodeMetrics.find? (fun p => p.1 == id) with
  | some p => p.2
  | none => []

/-- Whether a metric record's interval intersects the context window. -/
def inWindow (w : Nat × Nat) (m : MetricRec) : Bool :=
  w.1 ≤ m.mlast && m.mstart ≤ w.2

/-- Stable insertion behind every record whose start is not later
(spec section 4.5: "stable sort by start timestamp; ties broken by
insertion order"). -/
def insertMetric (m : MetricRec) : List MetricRec → List MetricRec
  | [] => [m]
  | x :: xs => if x.mstart ≤ m.mstart then x :: insertMetric m xs else m :: x :: xs

/-- Chronological stable sort of a merged series by start timestamp. -/
def sortByStart (l : List MetricRec) : List MetricRec :=
  l.foldl (fun acc m => insertMetric m acc) []

/-- Field-wise combination of two metric records: counters add, the
start/end span widens (spec section 4.5). -/
def combineMetrics (a b : MetricRec) : MetricRec :=
  ⟨min a.mstart b.mstart, max a.mlast b.mlast,
    a.txPackets + b.txPackets, a.rxPackets + b.rxPackets⟩

/-- `Sum()`: fold a series into one record per counter field by
field-wise addition, the result spanning the full series range. -/
def sumSeries : List MetricRec → MetricRec
  | [] => ⟨0, 0, 0, 0⟩
  | m :: rest => rest.foldl combineMetrics m

/-- One evaluation step: consume the previous result set, produce the
next one, or fail with a type error on an incompatible result-set kind
(spec section 4.4). -/
def evalStep (s : Snap) (w : Nat × Nat) : TravResult → Step → Except QErr TravResult
  | TravResult.startR, Step.vStep =>
    Except.ok (TravResult.nodesR (liveNodes s))
  | TravResult.nodesR l, Step.hasStep pairs =>
    Except.ok (TravResult.nodesR (l.filter (fun n => nodeMatches n pairs)))
  | TravResult.edgesR l, Step.hasStep pairs =>
    Except.ok (TravResult.edgesR (l.filter (fun e => edgeMatches e pairs)))
  | TravResult.nodesR l, Step.hasKeyStep path =>
    Except.ok (TravResult.nodesR (l.filter (fun n => (getAt n.metadata path).isSome)))
  | TravResult.edgesR l, Step.hasKeyStep path =>
    Except.ok (TravResult.edgesR (l.filter (fun e => (getAt e.metadata path).isSome)))
  | TravResult.nodesR l, Step.outStep pairs =>
    Except.ok (TravResult.nodesR (outNodes s pairs l))
  | TravResult.nodesR l, Step.inStep pairs =>
    Except.ok (TravResult.nodesR (inNodes s pairs l))
  | TravResult.nodesR l, Step.bothStep pairs =>
    Except.ok (TravResult.nodesR (bothNodes s pairs l))
  | TravResult.nodesR l, Step.inEStep pairs =>
    Except.ok (TravResult.edgesR (inEdges s pairs l))
  | TravResult.edgesR l, Step.inVStep pairs =>
    Except.ok (TravResult.nodesR (inVNodes s pairs l))
  | TravResult.nodesR l, Step.dedupStep =>
    Except.ok (TravResult.nodesR (dedupNodes l))
  | TravResult.edgesR l, Step.dedupStep =>
    Except.ok (TravResult.edgesR (dedupEdges l))
  | TravResult.nodesR l, Step.metricsStep =>
    Except.ok (TravResult.metricsR
      (l.map (fun n => (metricsOf s n.id).filter (fun m => inWindow w m))))
  | TravResult.metricsR l, Step.aggregatesStep =>
    Except.ok (TravResult.aggR (sortByStart l.flatten))
  | TravResult.aggR l, Step.sumStep =>
    Except.ok (TravResult.metricR (sumSeries l))
  | _, _ => Except.error QErr.typeErr

/-- Evaluate the remaining chain from a current result set, in
declaration order (spec section 4.4). -/
def evalQuery (s : Snap) (w : Nat × Nat) : TravResult → List Step → Except QErr TravResult
  | r, [] => Except.ok r
  | r, st :: rest =>
    match evalStep s w r st with
    | Except.ok r2 => evalQuery s w r2 rest
    | Except.error e => Except.error e

/-- Run a whole chain from the implicit root. -/
def runQuery (s : Snap) (w : Nat × Nat) (steps : List Step) : Except QErr TravResult :=
  evalQuery s w TravResult.startR steps

/-- Multi-result node form (the client's `GetNodes`). -/
def getNodes (s : Snap) (w : Nat × Nat) (steps : List Step) :
    Except QErr (List NodeRec) :=
  match runQuery s w steps with
  | Except.ok (TravResult.nodesR l) => Except.ok l
  | Except.ok _ => Except.error QErr.typeErr
  | Except.error e => Except.error e

/-- "Get exactly one" node form (the client's `GetNode`): not-found when
zero match, otherwise the first of the multi-result form
(spec section 6). -/
def getNode (s : Snap) (w : Nat × Nat) (steps : List Step) :
    Except QErr NodeRec :=
  match getNodes s w steps with
  | Except.ok [] => Except.error QErr.notFound
  | Except.ok (n :: _) => Except.ok n
  | Except.error e => Except.error e

/-- Multi-result metric form (the client's `GetMetrics`). -/
def getMetrics (s : Snap) (w : Nat × Nat) (steps : List Step) :
    Except QErr (List MetricRec) :=
  match runQuery s w steps with
  | Except.ok (TravResult.aggR l) => Except.ok l
  | Except.ok (TravResult.metricR m) => Except.ok [m]
  | Except.ok _ => Except.error QErr.typeErr
  | Except.error e => Except.error e

/-- "Get exactly one" metric form (the client's `GetMetric`). -/
def getMetric (s : Snap) (w : Nat × Nat) (steps : List Step) :
    Except QErr MetricRec :=
  match getMetrics s w steps with
  | Except.ok [] => Except.error QErr.notFound
  | Except.ok (m :: _) => Except.ok m
  | Except.error e => Except.error e

/-!
## Metadata indexer

Modelled from the spec: the `MetadataIndexer` implementation is not part
of the repository slice (only its construction site `newNodeIndexer` in
`topology/probes/k8s/node.go` is), so its behaviour is modelled from spec
section 4.3: constructed from a metadata predicate and a projection key;
on node-added/updated it (re)places a matching node under the current
value of the projection key, removing any stale placement; on
node-deleted it removes the node; the correctness contract is that its
state always equals a full predicate+projection scan of the live store.
-/

/-- Indexer predicate, in the shape of `graph.Metadata{"Type": "node"}`
used by `newNodeIndexer`: every listed top-level field must equal the
given value. -/
def idxPred (pred : List (String × Value)) (n : NodeRec) : Bool :=
  pred.all (fun kv => getAt n.metadata [kv.1] == some kv.2)

/-- Current value of the projection key at a node (a node without the
key is not indexed). -/
def projVal (key : String) (n : NodeRec) : Option Value :=
  getAt n.metadata [key]

/-- Indexer table: placements of nodes under the key value computed when
they were (re)placed. -/
abbrev IdxTable : Type := List (Value × NodeRec)

/-- Remove every placement of one node identifier. -/
def idxRemove (idx : IdxTable) (id : String) : IdxTable :=
  idx.filter (fun p => !(p.2.id == id))

/-- Listener reaction to node-added/node-updated: remove any stale
placement, then, if the node satisfies the predicate and has the
projection key, place it under the key's current value. -/
def idxUpsert (pred : List (String × Value)) (key : String)
    (idx : IdxTable) (n : NodeRec) : IdxTable :=
  match (if idxPred pred n then projVal key n else none) with
  | some v => idxRemove idx n.id ++ [(v, n)]
  | none => idxRemove idx n.id

/-- Listener reaction to node-deleted. -/
def idxDelete (idx : IdxTable) (id : String) : IdxTable :=
  idxRemove idx id

/-- `Get(keyValue)`: every node filed under the key value. -/
def idxGet (idx : IdxTable) (v : Value) : List NodeRec :=
  (idx.filter (fun p => p.1 == v)).map (fun p => p.2)

/-- What a full predicate+projection scan of the live store returns for
one key value (spec section 4.3's correctness contract). -/
def scanGet (pred : List (String × Value)) (key : String)
    (ns : List NodeRec) (v : Value) : List NodeRec :=
  ns.filter (fun n => idxPred pred n && projVal key n == some v)

/-- Store mutations driving the live store and, through the listener
bus, the indexer (spec sections 4.1 and 4.2). -/
inductive Mut where
  | addM (n : NodeRec)
  | updM (id : String) (patch : List (String × Value))
  | delM (id : String)
deriving DecidableEq, Repr

/-- Merge a patch into a live node record. -/
def mergeNode (n : NodeRec) (patch : List (String × Value)) : NodeRec :=
  ⟨n.id, n.host, mergeFields n.metadata patch, n.createdAt, n.updatedAt, n.deletedAt⟩

/-- Combined system state: live store plus indexer table. -/
abbrev SysState : Type := List NodeRec × IdxTable

/-- One accepted mutation: the store changes and the indexer's listener
runs synchronously under the same lock (spec section 4.2) — duplicate
creation and mutation of an absent entity are ConflictIgnored no-ops
that fire no event (spec section 7). -/
def sysStep (pred : List (String × Value)) (key : String)
    (σ : SysState) (m : Mut) : SysState :=
  match m with
  | Mut.addM n =>
    if σ.1.any (fun o => o.id == n.id) then σ
    else (σ.1 ++ [n], idxUpsert pred key σ.2 n)
  | Mut.updM id patch =>
    match σ.1.find? (fun o => o.id == id) with
    | some old =>
      (σ.1.map (fun o => if o.id == id then mergeNode old patch else o),
        idxUpsert pred key σ.2 (mergeNode old patch))
    | none => σ
  | Mut.delM id =>
    (σ.1.filter (fun o => !(o.id == id)), idxDelete σ.2 id)

/-- Run a finite mutation sequence from the empty store and empty index. -/
def sysRun (pred : List (String × Value)) (key : String)
    (ms : List Mut) : SysState :=
  ms.foldl (sysStep pred key) ([], [])

/-!
## Ownership links

Modelled from the spec: `topology.AddOwnershipLink` (called by
`linkNodeToHost` in `node.go`) is not part of the repository slice; spec
section 8 fixes its contract: "an ownership-typed edge from any
tunnel-type interface must resolve to exactly one ownership parent", so
installing an ownership link replaces any previous ownership edge into
the child.
-/

/-- Whether an edge is relation-typed "ownership". -/
def isOwnership (e : EdgeRec) : Bool :=
  getAt e.metadata ["RelationType"] == some (Value.vStr "ownership")

/-- Install an ownership edge parent → child, replacing any previous
ownership edge into the child so the ownership parent stays unique. -/
def addOwnershipLink (s : Snap) (parentId childId eid : String) : Snap :=
  ⟨s.nodes,
    (s.edges.filter (fun e => !(e.child == childId && isOwnership e)))
      ++ [⟨eid, parentId, childId, [("RelationType", Value.vStr "ownership")]⟩],
    s.nodeMetrics⟩

/-- The ownership parents of a node in a snapshot: parents of its
incoming ownership-typed edges. -/
def ownershipParents (s : Snap) (childId : String) : List String :=
  (s.edges.filter (fun e => e.child == childId && isOwnership e)).map
    (fun e => e.parent)

/-!
## k8s node probe (`topology/probes/k8s/node.go`)

`onAdd`, `OnUpdate` and the indexer wiring are embedded from the source.
The helpers that are referenced but outside the slice (`newMetadata`,
`addMetadata`, `linkPodsToNode`, the pod indexer) are modelled from the
spec: `newMetadata("node", name, node)` builds the probe metadata with
`Type`/`Name` fields, `addMetadata` merges the k8s object details into
the existing node without touching `Type`/`Name`, and the link helpers
only create edges.
-/

/-- A k8s API node object as received by the probe: UID, name and the
remaining object details. -/
structure K8sNodeObj where
  uid : String
  name : String
  details : Value
deriving DecidableEq, Repr

/-- Probe-side graph state: nodes and edges. -/
structure K8sGraph where
  nodes : List NodeRec
  edges : List EdgeRec
deriving DecidableEq, Repr

/-- Modelled from the spec: `newMetadata(typ, name, details)` of the k8s
probe produces the probe metadata document with its `Type` and `Name`
fields plus the object details. -/
def k8sNewMetadata (typ name : String) (details : Value) :
    List (String × Value) :=
  [("Type", Value.vStr typ), ("Name", Value.vStr name), ("K8s", details)]

/-- `graph.NewNode(uid, metadata)` as used by `onAdd`: create a node
record under the caller-supplied identifier. -/
def k8sNewNode (g : K8sGraph) (uid : String) (meta : List (String × Value)) :
    K8sGraph :=
  ⟨g.nodes ++ [⟨uid, "", meta, 0, 0, none⟩], g.edges⟩

/-- Modelled from the spec: `addMetadata(g, node, details)` merges the
k8s object details into the existing node's metadata under the `K8s`
field (a metadata-merge call, spec section 3; identifier unchanged). -/
def k8sAddMetadata (g : K8sGraph) (nid : String) (details : Value) : K8sGraph :=
  ⟨g.nodes.map (fun n =>
      if n.id == nid then
        ⟨n.id, n.host, setField n.metadata "K8s" details,
          n.createdAt, n.updatedAt, n.deletedAt⟩
      else n),
    g.edges⟩

/-- `newNodeIndexer(g)`'s lookup: `NewMetadataIndexer(g, Metadata{"Type":
"node"}, "Name")`, i.e. live nodes whose `Type` is "node", filed by
`Name` (node.go line 45, read through the indexer contract of spec
section 4.3). -/
def nodeIndexerGet (g : K8sGraph) (name : String) : List NodeRec :=
  g.nodes.filter (fun n =>
    getAt n.metadata ["Type"] == some (Value.vStr "node")
      && getAt n.metadata ["Name"] == some (Value.vStr name))

/-- `newHostIndexer(g)`'s lookup: `Type` is "host", filed by `Name`
(node.go line 49). -/
def hostIndexerGet (g : K8sGraph) (name : String) : List NodeRec :=
  g.nodes.filter (fun n =>
    getAt n.metadata ["Type"] == some (Value.vStr "host")
      && getAt n.metadata ["Name"] == some (Value.vStr name))

/-- `newPodIndexerByHost(g)`'s lookup, modelled from the spec: pod nodes
filed by the host they run on. -/
def podIndexerGet (g : K8sGraph) (name : String) : List NodeRec :=
  g.nodes.filter (fun n =>
    getAt n.metadata ["Type"] == some (Value.vStr "pod")
      && getAt n.metadata ["Pod"] == some (Value.vStr name))

/-- Modelled from the spec: `linkPodsToNode` only creates edges from the
node to each pod; it never adds or changes nodes. -/
def linkPodsToNode (g : K8sGraph) (nid : String) (pods : List NodeRec) :
    K8sGraph :=
  ⟨g.nodes,
    g.edges ++ pods.map (fun p =>
      ⟨nid ++ "-" ++ p.id, nid, p.id, [("RelationType", Value.vStr "ownership")]⟩)⟩

/-- `linkNodeToHost` (node.go line 57): an ownership link host → node;
edges only. -/
def linkNodeToHost (g : K8sGraph) (hostId nid : String) : K8sGraph :=
  ⟨g.nodes,
    g.edges ++ [⟨hostId ++ "-" ++ nid, hostId, nid,
      [("RelationType", Value.vStr "ownership")]⟩]⟩

/-- Tail of `nodeCache.onAdd` after the create-or-merge choice: link the
pods filed under the host name to the node and, when a host node exists,
add the ownership link host → node (node.go lines 84-89). -/
def k8sFinish (g : K8sGraph) (nid hostName : String) : K8sGraph :=
  match hostIndexerGet (linkPodsToNode g nid (podIndexerGet g hostName)) hostName with
  | [] => linkPodsToNode g nid (podIndexerGet g hostName)
  | h :: _ =>
    linkNodeToHost (linkPodsToNode g nid (podIndexerGet g hostName)) h.id nid

/-- `nodeCache.onAdd` (node.go lines 65-90): look the k8s node's name up
in the node indexer; create a new graph node when nothing is filed under
the name, otherwise merge the object details into the existing node;
then link pods and, when present, the host. -/
def onAdd (g : K8sGraph) (obj : K8sNodeObj) : K8sGraph :=
  match nodeIndexerGet g obj.name with
  | [] =>
    k8sFinish (k8sNewNode g obj.uid (k8sNewMetadata "node" obj.name obj.details))
      obj.uid obj.name
  | n :: _ => k8sFinish (k8sAddMetadata g n.id obj.details) n.id obj.name

/-- `OnUpdate` delegates to `onAdd` (node.go line 96), so a sequence of
add/update events is a fold of `onAdd`. -/
def onEvents (g : K8sGraph) (objs : List K8sNodeObj) : K8sGraph :=
  objs.foldl onAdd g

/-- Bridge node of the `TestBridgeOVS` scenario. -/
def brNodeC3 : NodeRec :=
  ⟨"B1", "host1", [("Type", Value.vStr "ovsbridge"), ("Name", Value.vStr "br-test1")],
    0, 0, none⟩

/-- Port node of the `TestBridgeOVS` scenario. -/
def portNodeC3 : NodeRec :=
  ⟨"P1", "host1", [("Type", Value.vStr "ovsport"), ("Name", Value.vStr "br-test1")],
    0, 0, none⟩

/-- Snapshot with two parallel edges between the same ordered pair
(bridge, port), as in `TestBridgeOVS`. -/
def ovsSnapC3 : Snap :=
  ⟨[brNodeC3, portNodeC3],
    [⟨"E1", "B1", "P1", []⟩, ⟨"E2", "B1", "P1", []⟩], []⟩

/-- `V().Has("Type","ovsbridge","Name","br-test1").Out("Type","ovsport")`. -/
def ovsQueryC3 : List Step :=
  [Step.vStep,
    Step.hasStep [(["Type"], FilterVal.feq (Value.vStr "ovsbridge")),
      (["Name"], FilterVal.feq (Value.vStr "br-test1"))],
    Step.outStep [(["Type"], FilterVal.feq (Value.vStr "ovsport"))]]

instance {ε α : Type} [DecidableEq ε] [DecidableEq α] :
    DecidableEq (Except ε α) := fun a b =>
  match a, b with
  | Except.ok x, Except.ok y =>
    match decEq x y with
    | isTrue h => isTrue (by rw [h])
    | isFalse h => isFalse (fun hh => h (by cases hh; rfl))
  | Except.error x, Except.error y =>
    match decEq x y with
    | isTrue h => isTrue (by rw [h])
    | isFalse h => isFalse (fun hh => h (by cases hh; rfl))
  | Except.ok _, Except.error _ => isFalse (fun h => by cases h)
  | Except.error _, Except.ok _ => isFalse (fun h => by cases h)

/-- Node storing a string under `Name` (`TestDockerLabels` stores label
values as strings). -/
def strNodeC6 : NodeRec :=
  ⟨"S1", "host1", [("Name", Value.vStr "123")], 0, 0, none⟩

/-- Node storing a number under `Name`. -/
def numNodeC6 : NodeRec :=
  ⟨"N1", "host1", [("Name", Value.vInt 123)], 0, 0, none⟩

/-- Snapshot holding both, so that an integer-literal `Has` meets a
string-typed value on one entry. -/
def mismatchSnapC6 : Snap := ⟨[strNodeC6, numNodeC6], [], []⟩

/-- The nested metadata document of `TestQueryMetadata`:
`A.B.C = 123`, `A.B.D = [1, 2, 3]`, `A.F.G = 123`. -/
def seqMetaC9 : List (String × Value) :=
  [("A", Value.vMap
    [("B", Value.vMap
      [("C", Value.vInt 123),
        ("D", Value.vSeq [Value.vInt 1, Value.vInt 2, Value.vInt 3])]),
      ("F", Value.vMap [("G", Value.vInt 123)])])]

/-- The injected node of `TestQueryMetadata`. -/
def seqNodeC9 : NodeRec := ⟨"123", "test", seqMetaC9, 0, 0, none⟩

/-- Snapshot holding the injected node. -/
def seqSnapC9 : Snap := ⟨[seqNodeC9], [], []⟩

/-- Empty snapshot. -/
def emptySnapC7 : Snap := ⟨[], [], []⟩

/-- History log of the C1 scenario: node `X` created at `T1 = 100`, a
metadata patch at `150`, deleted at `T2 = 200` (as in the rename and
route-table history tests). -/
def logC1 : List GraphOp :=
  [GraphOp.addNode "X" "host1" [("Name", Value.vStr "eth0")] 100,
    GraphOp.updateNode "X" [("MAC", Value.vStr "00:00:00:00:00:aa")] 150,
    GraphOp.delNode "X" 200]

/-- The read-path invariant carried through evaluation: any aggregated
series in flight is sorted by start. -/
def aggSorted : TravResult → Prop
  | TravResult.aggR l => l.Pairwise (fun a b => a.mstart ≤ b.mstart)
  | _ => True

/-- The 15 transmit events of `TestInterfaceMetrics` (15 pings, 2 counted
packets each), recorded in chronological order. -/
def loMetricsC45 : List MetricRec :=
  (List.range 15).map (fun i => ⟨1000 + 10 * i, 1005 + 10 * i, 2, 2⟩)

/-- The `im` network namespace node. -/
def netnsNodeC45 : NodeRec :=
  ⟨"NS", "host1", [("Name", Value.vStr "im"), ("Type", Value.vStr "netns")],
    0, 0, none⟩

/-- The `lo` interface node carrying the metrics. -/
def loNodeC45 : NodeRec :=
  ⟨"LO", "host1", [("Name", Value.vStr "lo")], 0, 0, none⟩

/-- Snapshot of the `TestInterfaceMetrics` scenario. -/
def metricsSnapC45 : Snap :=
  ⟨[netnsNodeC45, loNodeC45], [⟨"E", "NS", "LO", []⟩],
    [("LO", loMetricsC45)]⟩

/-- `V().Has("Name","im","Type","netns").Out().Has("Name","lo")
.Metrics().Aggregates()` — the `Out` filter plays the `Has` role. -/
def metricsQueryC45 : List Step :=
  [Step.vStep,
    Step.hasStep [(["Name"], FilterVal.feq (Value.vStr "im")),
      (["Type"], FilterVal.feq (Value.vStr "netns"))],
    Step.outStep [(["Name"], FilterVal.feq (Value.vStr "lo"))],
    Step.metricsStep,
    Step.aggregatesStep]

/-- The reduced record of the reference scenario: 30 transmitted packets
over the window 1000–1145. -/
def sumC45 : MetricRec := ⟨1000, 1145, 30, 30⟩

/-- Host node of the `TestOVSOwnershipLink` scenario. -/
def hostC8 : NodeRec :=
  ⟨"H", "host1", [("Type", Value.vStr "host"), ("Name", Value.vStr "host1")],
    0, 0, none⟩

/-- Bridge node `br-owner`. -/
def brC8 : NodeRec :=
  ⟨"BR", "host1", [("Type", Value.vStr "ovsbridge"), ("Name", Value.vStr "br-owner")],
    0, 0, none⟩

/-- Patch interface. -/
def patchC8 : NodeRec :=
  ⟨"PA", "host1", [("Type", Value.vStr "patch"), ("Name", Value.vStr "patch-br-owner")],
    0, 0, none⟩

/-- GRE tunnel interface. -/
def greC8 : NodeRec :=
  ⟨"GR", "host1", [("Type", Value.vStr "gre"), ("Name", Value.vStr "gre-br-owner")],
    0, 0, none⟩

/-- VXLAN tunnel interface. -/
def vxlanC8 : NodeRec :=
  ⟨"VX", "host1", [("Type", Value.vStr "vxlan"), ("Name", Value.vStr "vxlan-br-owner")],
    0, 0, none⟩

/-- Geneve tunnel interface. -/
def geneveC8 : NodeRec :=
  ⟨"GE", "host1", [("Type", Value.vStr "geneve"), ("Name", Value.vStr "geneve-br-owner")],
    0, 0, none⟩

/-- Internal interface `intf-owner`, not owned by the bridge. -/
def intfC8 : NodeRec :=
  ⟨"IN", "host1", [("Type", Value.vStr "internal"), ("Name", Value.vStr "intf-owner")],
    0, 0, none⟩

/-- Snapshot after the probes installed the ownership links: tunnels and
patch owned by the bridge, the internal interface by the host. -/
def ownSnapC8 : Snap :=
  addOwnershipLink
    (addOwnershipLink
      (addOwnershipLink
        (addOwnershipLink
          (addOwnershipLink
            (addOwnershipLink
              ⟨[hostC8, brC8, patchC8, greC8, vxlanC8, geneveC8, intfC8], [], []⟩
              "H" "BR" "e0")
            "BR" "PA" "e1")
          "BR" "GR" "e2")
        "BR" "VX" "e3")
      "BR" "GE" "e4")
    "H" "IN" "e5"

/-- `V().Has("Name", name, "Type", NE("ovsport"))
.InE().Has("RelationType", "ownership").InV().Has(pairs)` as in
`TestOVSOwnershipLink`. -/
def c8Query (name : String) (pairs : List (List String × FilterVal)) :
    List Step :=
  [Step.vStep,
    Step.hasStep [(["Name"], FilterVal.feq (Value.vStr name)),
      (["Type"], FilterVal.fne (Value.vStr "ovsport"))],
    Step.inEStep [(["RelationType"], FilterVal.feq (Value.vStr "ownership"))],
    Step.inVStep pairs]

/-- The bridge-name filter of the ownership queries. -/
def brPairsC8 : List (List String × FilterVal) :=
  [(["Name"], FilterVal.feq (Value.vStr "br-owner"))]

/-- The indexer predicate of `newNodeIndexer`, as one Boolean test. -/
def isNodeNamed (name : String) (n : NodeRec) : Bool :=
  getAt n.metadata ["Type"] == some (Value.vStr "node")
    && getAt n.metadata ["Name"] == some (Value.vStr name)

/-- The indexer/store invariant (spec section 4.3): every placement is a
live, predicate-satisfying node filed under its current key value; every
live node satisfying the predicate with a key value is placed; store
identifiers are unique. -/
def IdxInv (pred : List (String × Value)) (key : String) (σ : SysState) : Prop :=
  (∀ p ∈ σ.2, p.2 ∈ σ.1 ∧ idxPred pred p.2 = true ∧ projVal key p.2 = some p.1)
  ∧ (∀ n ∈ σ.1, idxPred pred n = true →
      ∀ v, projVal key n = some v → (v, n) ∈ σ.2)
  ∧ (σ.1.map NodeRec.id).Nodup

lemma updRec_id (n : NodeRec) (patch : List (String × Value)) (ts : Nat) :
    (updRec n patch ts).id = n.id := by
  unfold updRec; split <;> rfl

lemma delRec_id (n : NodeRec) (ts : Nat) : (delRec n ts).id = n.id := by
  unfold delRec; split <;> rfl

lemma find_map_cond_eq (s : List NodeRec) (id : String) (g : NodeRec → NodeRec)
    (hg : ∀ n, (g n).id = n.id) :
    (s.map (fun n => if n.id == id then g n else n)).find? (fun n => n.id == id)
      = (s.find? (fun n => n.id == id)).map g := by
  induction s with
  | nil => rfl
  | cons n rest ih =>
    rw [List.map_cons, List.find?_cons, List.find?_cons]
    by_cases hn : n.id = id
    · have hfa : (n.id == id) = true := beq_iff_eq.mpr hn
      have hif : (if n.id == id then g n else n) = g n := by simp [hfa]
      have h2 : ((g n).id == id) = true := beq_iff_eq.mpr (by rw [hg n, hn])
      rw [hif]
      simp [hfa, h2]
    · have hfa : (n.id == id) = false := by simp [hn]
      have hif : (if n.id == id then g n else n) = n := by simp [hfa]
      rw [hif]
      simp only [hfa]
      exact ih

lemma find_map_cond_ne (s : List NodeRec) (tid id : String) (g : NodeRec → NodeRec)
    (hg : ∀ n, (g n).id = n.id) (hne : tid ≠ id) :
    (s.map (fun n => if n.id == tid then g n else n)).find? (fun n => n.id == id)
      = s.find? (fun n => n.id == id) := by
  induction s with
  | nil => rfl
  | cons n rest ih =>
    rw [List.map_cons, List.find?_cons, List.find?_cons]
    by_cases hn : n.id = tid
    · have hfa : (n.id == tid) = true := beq_iff_eq.mpr hn
      have hif : (if n.id == tid then g n else n) = g n := by simp [hfa]
      have h1 : ((g n).id == id) = false := by
        simp [hg n, hn, hne]
      have h2 : (n.id == id) = false := by
        simp [hn, hne]
      rw [hif]
      simp only [h1, h2]
      exact ih
    · have hfa : (n.id == tid) = false := by simp [hn]
      have hif : (if n.id == tid then g n else n) = n := by simp [hfa]
      rw [hif]
      by_cases h2 : n.id = id
      · simp [h2]
      · have h2b : (n.id == id) = false := by simp [h2]
        simp only [h2b]
        exact ih

lemma lookupRec_applyOp (s : List NodeRec) (op : GraphOp) (id : String) :
    lookupRec (applyOp s op) id
      = if op.nid == id then stepNode (lookupRec s id) op else lookupRec s id := by
  cases op with
  | addNode oid host meta ts =>
    simp only [applyOp, GraphOp.nid]
    by_cases heq : oid = id
    · subst heq
      simp only [beq_self_eq_true, if_true]
      by_cases hany : s.any (fun n => n.id == oid) = true
      · simp only [hany, if_true]
        have hsome : (lookupRec s oid).isSome := by
          rw [lookupRec, List.find?_isSome]
          rcases List.any_eq_true.mp hany with ⟨n, hn, hp⟩
          exact ⟨n, hn, hp⟩
        rcases Option.isSome_iff_exists.mp hsome with ⟨m, hm⟩
        rw [hm]; rfl
      · have hany2 : (s.any fun n => n.id == oid) = false := by simpa using hany
        simp only [hany2, Bool.false_eq_true, if_false]
        have hnone : lookupRec s oid = none := by
          rw [lookupRec, List.find?_eq_none]
          intro n hn
          exact List.any_eq_false.mp hany2 n hn
        rw [lookupRec, List.find?_append,
          show List.find? (fun n => n.id == oid) s = none from hnone, hnone]
        simp [List.find?, mkRec, stepNode]
    · have hb : (oid == id) = false := by simp [heq]
      simp only [hb, Bool.false_eq_true, if_false]
      by_cases hany : s.any (fun n => n.id == oid) = true
      · simp [hany, lookupRec]
      · have hany2 : (s.any fun n => n.id == oid) = false := by simpa using hany
        simp only [hany2, Bool.false_eq_true, if_false]
        rw [lookupRec, lookupRec, List.find?_append]
        have hlast : List.find? (fun n => n.id == id) [mkRec oid host meta ts] = none := by
          simp [List.find?, mkRec, hb]
        rw [hlast]
        simp
  | updateNode oid patch ts =>
    simp only [applyOp, GraphOp.nid]
    by_cases heq : oid = id
    · subst heq
      simp only [beq_self_eq_true, if_true]
      rw [lookupRec, lookupRec, find_map_cond_eq s oid _ (fun n => updRec_id n patch ts)]
      cases s.find? (fun n => n.id == oid) <;> rfl
    · have hb : (oid == id) = false := by simp [heq]
      simp only [hb, Bool.false_eq_true, if_false]
      exact find_map_cond_ne s oid id _ (fun n => updRec_id n patch ts) heq
  | delNode oid ts =>
    simp only [applyOp, GraphOp.nid]
    by_cases heq : oid = id
    · subst heq
      simp only [beq_self_eq_true, if_true]
      rw [lookupRec, lookupRec, find_map_cond_eq s oid _ (fun n => delRec_id n ts)]
      cases s.find? (fun n => n.id == oid) <;> rfl
    · have hb : (oid == id) = false := by simp [heq]
      simp only [hb, Bool.false_eq_true, if_false]
      exact find_map_cond_ne s oid id _ (fun n => delRec_id n ts) heq

lemma lookupRec_foldl (ops : List GraphOp) (s : List NodeRec) (id : String) :
    lookupRec (ops.foldl applyOp s) id
      = (ops.filter (fun op => op.nid == id)).foldl stepNode (lookupRec s id) := by
  induction ops generalizing s with
  | nil => rfl
  | cons op rest ih =>
    rw [List.foldl_cons, ih, List.filter_cons, lookupRec_applyOp]
    by_cases h : op.nid = id
    · simp [h]
    · have hb : (op.nid == id) = false := by simp [h]
      simp [hb]

/-- The per-entity view of log replay: the record of `id` in the
projection as of `T` is the fold of the entity's own entries with
timestamp at most `T`. -/
lemma nodeAt_eq_fold (log : List GraphOp) (id : String) (T : Nat) :
    nodeAt log id T
      = ((opsOf log id).filter (fun op => op.ts ≤ T)).foldl stepNode none := by
  show lookupRec (replayAt log T) id = _
  rw [replayAt, lookupRec_foldl]
  have h0 : lookupRec [] id = none := rfl
  rw [h0, opsOf, List.filter_filter, List.filter_filter]
  congr 1
  apply List.filter_congr
  intro op _
  rw [Bool.and_comm]

lemma foldl_stepNode_none (ops : List GraphOp) (h : ∀ op ∈ ops, op.isAdd = false) :
    ops.foldl stepNode none = none := by
  induction ops with
  | nil => rfl
  | cons op rest ih =>
    have hop := h op (List.mem_cons_self op rest)
    have hstep : stepNode none op = none := by
      cases op with
      | addNode _ _ _ _ => simp [GraphOp.isAdd] at hop
      | updateNode _ _ _ => rfl
      | delNode _ _ => rfl
    rw [List.foldl_cons, hstep]
    exact ih (fun o ho => h o (List.mem_cons_of_mem op ho))

lemma shapeTail_no_add (ops : List GraphOp) (h : shapeTail ops = true) :
    ∀ op ∈ ops, op.isAdd = false := by
  induction ops with
  | nil => intro op hop; cases hop
  | cons op rest ih =>
    rw [shapeTail] at h
    intro o ho
    rcases List.mem_cons.mp ho with hh | hh
    · subst hh
      by_cases hu : o.isUpd = true
      · cases o with
        | updateNode _ _ _ => rfl
        | addNode _ _ _ _ => simp [GraphOp.isUpd] at hu
        | delNode _ _ => simp [GraphOp.isUpd] at hu
      · have hub : o.isUpd = false := by simpa using hu
        rw [hub] at h
        simp only [Bool.false_eq_true, if_false, Bool.and_eq_true] at h
        cases o with
        | delNode _ _ => rfl
        | addNode _ _ _ _ => simp [GraphOp.isDel] at h
        | updateNode _ _ _ => simp [GraphOp.isUpd] at hu
    · by_cases hu : op.isUpd = true
      · rw [hu] at h
        simp only [if_true] at h
        exact ih h o hh
      · have hub : op.isUpd = false := by simpa using hu
        rw [hub] at h
        simp only [Bool.false_eq_true, if_false, Bool.and_eq_true, List.isEmpty_iff] at h
        rw [h.2] at hh
        cases hh

lemma foldl_stepNode_tail (T : Nat) (ops : List GraphOp) (h : shapeTail ops = true)
    (n : NodeRec) (hlive : n.deletedAt = none) :
    ∃ n2, (ops.filter (fun op => op.ts ≤ T)).foldl stepNode (some n) = some n2
      ∧ n2.metadata
          = ((ops.filter (fun op => op.isUpd && op.ts ≤ T)).map GraphOp.patchOf).foldl
              mergeFields n.metadata
      ∧ n2.deletedAt.isNone = (match ops.find? GraphOp.isDel with
          | some d => decide (T < d.ts)
          | none => true) := by
  induction ops generalizing n with
  | nil =>
    refine ⟨n, rfl, rfl, ?_⟩
    rw [hlive]
    rfl
  | cons op rest ih =>
    cases op with
    | updateNode oid patch ts =>
      rw [shapeTail] at h
      simp only [GraphOp.isUpd, if_true] at h
      have hdel : (GraphOp.updateNode oid patch ts).isDel = false := rfl
      by_cases hts : ts ≤ T
      · have hd1 : (decide ((GraphOp.updateNode oid patch ts).ts ≤ T)) = true := by
          simp [GraphOp.ts, hts]
        have hd2 : ((GraphOp.updateNode oid patch ts).isUpd
            && decide ((GraphOp.updateNode oid patch ts).ts ≤ T)) = true := by
          simp [GraphOp.isUpd, GraphOp.ts, hts]
        have hstep : stepNode (some n) (GraphOp.updateNode oid patch ts)
            = some ⟨n.id, n.host, mergeFields n.metadata patch, n.createdAt, ts, none⟩ := by
          simp [stepNode, updRec, hlive]
        rcases ih h ⟨n.id, n.host, mergeFields n.metadata patch, n.createdAt, ts, none⟩ rfl
          with ⟨n2, hfold, hmeta, hdel2⟩
        refine ⟨n2, ?_, ?_, ?_⟩
        · rw [List.filter_cons, hd1]
          simp only [if_true, List.foldl_cons, hstep]
          exact hfold
        · rw [List.filter_cons, hd2]
          simp only [if_true, List.map_cons, List.foldl_cons, GraphOp.patchOf]
          exact hmeta
        · rw [List.find?_cons_of_neg _ (by simp [hdel])]
          exact hdel2
      · have hd1 : (decide ((GraphOp.updateNode oid patch ts).ts ≤ T)) = false := by
          simp [GraphOp.ts, hts]
        have hd2 : ((GraphOp.updateNode oid patch ts).isUpd
            && decide ((GraphOp.updateNode oid patch ts).ts ≤ T)) = false := by
          simp [GraphOp.ts, hts]
        rcases ih h n hlive with ⟨n2, hfold, hmeta, hdel2⟩
        refine ⟨n2, ?_, ?_, ?_⟩
        · rw [List.filter_cons, hd1]
          simpa using hfold
        · rw [List.filter_cons, hd2]
          simpa using hmeta
        · rw [List.find?_cons_of_neg _ (by simp [hdel])]
          exact hdel2
    | delNode oid ts =>
      rw [shapeTail] at h
      simp only [GraphOp.isUpd, GraphOp.isDel, Bool.false_eq_true, if_false,
        Bool.true_and, List.isEmpty_iff] at h
      subst h
      have hfind : List.find? GraphOp.isDel [GraphOp.delNode oid ts]
          = some (GraphOp.delNode oid ts) := by
        rw [List.find?_cons_of_pos _ (by rfl)]
      by_cases hts : ts ≤ T
      · have hd1 : (decide ((GraphOp.delNode oid ts).ts ≤ T)) = true := by
          simp [GraphOp.ts, hts]
        refine ⟨⟨n.id, n.host, n.metadata, n.createdAt, n.updatedAt, some ts⟩, ?_, ?_, ?_⟩
        · rw [List.filter_cons, hd1]
          simp only [if_true, List.filter_nil, List.foldl_cons, List.foldl_nil]
          simp [stepNode, delRec, hlive]
        · simp [List.filter_cons, GraphOp.isUpd]
        · rw [hfind]
          simp [GraphOp.ts, Nat.not_lt.mpr hts]
      · have hd1 : (decide ((GraphOp.delNode oid ts).ts ≤ T)) = false := by
          simp [GraphOp.ts, hts]
        refine ⟨n, ?_, ?_, ?_⟩
        · rw [List.filter_cons, hd1]
          simp
        · simp [List.filter_cons, GraphOp.isUpd]
        · rw [hfind, hlive]
          simp [GraphOp.ts, Nat.lt_of_not_le (fun hc => hts hc)]
    | addNode oid host meta ts =>
      rw [shapeTail] at h
      simp [GraphOp.isUpd, GraphOp.isDel] at h

/-- Historical reconstruction agrees with the spec criterion: presence at
`T` is exactly creation ≤ `T` with deletion absent or later than `T`, and
metadata at `T` is the in-order merge of the patches up to `T`. -/
lemma nodeHistory_correct (log : List GraphOp) (id : String) (T : Nat)
    (h : shapeOps (opsOf log id) = true) :
    presentAt log id T = presentSpec log id T
      ∧ (nodeAt log id T).map NodeRec.metadata = metaSpec log id T := by
  have hfold := nodeAt_eq_fold log id T
  cases hops : opsOf log id with
  | nil =>
    have hnode : nodeAt log id T = none := by
      rw [hfold, hops]; rfl
    constructor
    · simp only [presentAt, hnode, presentSpec, creationTs, creationOp, hops]
      rfl
    · simp only [hnode, metaSpec, creationOp, hops]
      rfl
  | cons a rest =>
    rw [hops, shapeOps, Bool.and_eq_true] at h
    rcases h with ⟨ha, htail⟩
    cases a with
    | updateNode _ _ _ => simp [GraphOp.isAdd] at ha
    | delNode _ _ => simp [GraphOp.isAdd] at ha
    | addNode id0 h0 m0 tc =>
      have hc : creationOp log id = some (GraphOp.addNode id0 h0 m0 tc) := by
        rw [creationOp, hops, List.find?_cons_of_pos _ (by rfl)]
      have hdelfind : deletionTs log id
          = (rest.find? GraphOp.isDel).map GraphOp.ts := by
        rw [deletionTs, hops, List.find?_cons_of_neg _ (by simp [GraphOp.isDel])]
      by_cases htc : tc ≤ T
      · have hfilter : (opsOf log id).filter (fun op => op.ts ≤ T)
            = GraphOp.addNode id0 h0 m0 tc
                :: rest.filter (fun op => op.ts ≤ T) := by
          rw [hops, List.filter_cons]
          simp [GraphOp.ts, htc]
        rcases foldl_stepNode_tail T rest htail (mkRec id0 h0 m0 tc) rfl
          with ⟨n2, hf2, hm2, hd2⟩
        have hnode : nodeAt log id T = some n2 := by
          rw [hfold, hfilter, List.foldl_cons]
          exact hf2
        constructor
        · simp only [presentAt, hnode]
          rw [presentSpec, creationTs, hc]
          cases hdel : rest.find? GraphOp.isDel with
          | none =>
            rw [hdel] at hd2
            rw [hdelfind, hdel]
            simp only [Option.map_none']
            rw [hd2]
            simp [GraphOp.ts, htc]
          | some d =>
            rw [hdel] at hd2
            rw [hdelfind, hdel]
            simp only [Option.map_some']
            rw [hd2]
            simp [GraphOp.ts, htc]
        · rw [hnode, metaSpec, hc]
          simp only [htc, if_true, Option.map_some']
          have hpat : patchesAt log id T
              = (rest.filter (fun op => op.isUpd && op.ts ≤ T)).map GraphOp.patchOf := by
            rw [patchesAt, hops, List.filter_cons]
            simp [GraphOp.isUpd]
          rw [hpat, hm2]
          rfl
      · have hfilter : (opsOf log id).filter (fun op => op.ts ≤ T)
            = rest.filter (fun op => op.ts ≤ T) := by
          rw [hops, List.filter_cons]
          simp [GraphOp.ts, htc]
        have hnode : nodeAt log id T = none := by
          rw [hfold, hfilter]
          apply foldl_stepNode_none
          intro op hop
          exact shapeTail_no_add rest htail op (List.mem_filter.mp hop).1
        constructor
        · simp only [presentAt, hnode]
          rw [presentSpec, creationTs, hc]
          cases hdel : deletionTs log id <;> simp [GraphOp.ts, htc]
        · rw [hnode, metaSpec, hc]
          simp [htc]

lemma find?_filter_of_imp {α : Type} (l : List α) (p q : α → Bool)
    (h : ∀ x ∈ l, p x = true → q x = true) :
    (l.filter q).find? p = l.find? p := by
  induction l with
  | nil => rfl
  | cons x xs ih =>
    by_cases hq : q x = true
    · rw [List.filter_cons, hq]
      simp only [if_true]
      cases hp : p x
      · rw [List.find?_cons_of_neg _ (by simp [hp]),
          List.find?_cons_of_neg _ (by simp [hp])]
        exact ih (fun y hy => h y (List.mem_cons_of_mem x hy))
      · rw [List.find?_cons_of_pos _ hp, List.find?_cons_of_pos _ hp]
    · have hqf : q x = false := by simpa using hq
      have hpf : p x = false := by
        cases hp : p x
        · rfl
        · exact absurd (h x (List.mem_cons_self x xs) hp) (by simp [hqf])
      rw [List.filter_cons, hqf]
      simp only [Bool.false_eq_true, if_false]
      rw [List.find?_cons_of_neg _ (by simp [hpf])]
      exact ih (fun y hy => h y (List.mem_cons_of_mem x hy))

lemma dedupNodesAux_sublist (l : List NodeRec) :
    ∀ seen, (dedupNodesAux seen l).Sublist l := by
  induction l with
  | nil => intro seen; simp [dedupNodesAux]
  | cons n rest ih =>
    intro seen
    rw [dedupNodesAux]
    by_cases h : seen.contains n.id = true
    · simp only [h, if_true]
      exact (ih seen).cons n
    · have hf : seen.contains n.id = false := by simpa using h
      simp only [hf, Bool.false_eq_true, if_false]
      exact (ih _).cons₂ n

lemma mem_dedupNodesAux_not_seen (l : List NodeRec) :
    ∀ seen m, m ∈ dedupNodesAux seen l → seen.contains m.id = false := by
  induction l with
  | nil => intro seen m hm; simp [dedupNodesAux] at hm
  | cons n rest ih =>
    intro seen m hm
    rw [dedupNodesAux] at hm
    by_cases h : seen.contains n.id = true
    · simp only [h, if_true] at hm
      exact ih seen m hm
    · have hf : seen.contains n.id = false := by simpa using h
      simp only [hf, Bool.false_eq_true, if_false] at hm
      rcases List.mem_cons.mp hm with he | ht
      · subst he; exact hf
      · have h2 := ih _ m ht
        rw [List.contains_cons] at h2
        exact (Bool.or_eq_false_iff.mp h2).2

lemma dedupNodes_sublist (l : List NodeRec) : (dedupNodes l).Sublist l :=
  dedupNodesAux_sublist l []

lemma dedupNodesAux_id_nodup (l : List NodeRec) :
    ∀ seen, ((dedupNodesAux seen l).map NodeRec.id).Nodup := by
  induction l with
  | nil => intro seen; simp [dedupNodesAux]
  | cons n rest ih =>
    intro seen
    rw [dedupNodesAux]
    by_cases h : seen.contains n.id = true
    · simp only [h, if_true]
      exact ih seen
    · have hf : seen.contains n.id = false := by simpa using h
      simp only [hf, Bool.false_eq_true, if_false, List.map_cons]
      refine List.nodup_cons.mpr ⟨?_, ih _⟩
      intro hmem
      rcases List.mem_map.mp hmem with ⟨m, hm, hid⟩
      have h2 := mem_dedupNodesAux_not_seen rest _ m hm
      rw [List.contains_cons, hid] at h2
      simp at h2

lemma dedupNodes_id_nodup (l : List NodeRec) :
    ((dedupNodes l).map NodeRec.id).Nodup :=
  dedupNodesAux_id_nodup l []

lemma dedupNodesAux_first_seen (l : List NodeRec) :
    ∀ seen, ∀ m ∈ dedupNodesAux seen l,
      l.find? (fun x => x.id == m.id) = some m := by
  induction l with
  | nil => intro seen m hm; simp [dedupNodesAux] at hm
  | cons n rest ih =>
    intro seen m hm
    rw [dedupNodesAux] at hm
    by_cases h : seen.contains n.id = true
    · simp only [h, if_true] at hm
      have hns := mem_dedupNodesAux_not_seen rest seen m hm
      have hne : (n.id == m.id) = false := by
        cases hbe : n.id == m.id
        · rfl
        · have : n.id = m.id := by simpa using hbe
          rw [← this, h] at hns
          cases hns
      rw [List.find?_cons_of_neg _ (by simp only [hne]; exact fun hc => by cases hc)]
      exact ih seen m hm
    · have hf : seen.contains n.id = false := by simpa using h
      simp only [hf, Bool.false_eq_true, if_false] at hm
      rcases List.mem_cons.mp hm with he | ht
      · subst he
        exact List.find?_cons_of_pos _ (by simp)
      · have hns := mem_dedupNodesAux_not_seen rest _ m ht
        rw [List.contains_cons] at hns
        have h1 := (Bool.or_eq_false_iff.mp hns).1
        have hne : (n.id == m.id) = false := by
          cases hbe : n.id == m.id
          · rfl
          · have heq : n.id = m.id := by simpa using hbe
            rw [heq] at h1
            simp at h1
        rw [List.find?_cons_of_neg _ (by simp only [hne]; exact fun hc => by cases hc)]
        exact ih _ m ht

lemma dedupNodes_first_seen (l : List NodeRec) :
    ∀ m ∈ dedupNodes l, l.find? (fun x => x.id == m.id) = some m :=
  dedupNodesAux_first_seen l []

lemma dedupNodesAux_covers (l : List NodeRec) :
    ∀ seen x, x ∈ l → seen.contains x.id = false →
      ∃ m, m ∈ dedupNodesAux seen l ∧ m.id = x.id := by
  induction l with
  | nil => intro seen x hx; cases hx
  | cons n rest ih =>
    intro seen x hx hns
    rw [dedupNodesAux]
    by_cases h : seen.contains n.id = true
    · simp only [h, if_true]
      rcases List.mem_cons.mp hx with he | ht
      · subst he
        rw [hns] at h
        cases h
      · exact ih seen x ht hns
    · have hf : seen.contains n.id = false := by simpa using h
      simp only [hf, Bool.false_eq_true, if_false]
      by_cases hid : x.id = n.id
      · exact ⟨n, List.mem_cons_self _ _, hid.symm⟩
      · rcases List.mem_cons.mp hx with he | ht
        · subst he
          exact absurd rfl hid
        · have hns2 : (n.id :: seen).contains x.id = false := by
            rw [List.contains_cons]
            refine Bool.or_eq_false_iff.mpr ⟨?_, hns⟩
            cases hbe : x.id == n.id
            · rfl
            · exact absurd (by simpa using hbe) hid
          rcases ih _ x ht hns2 with ⟨m, hm, he2⟩
          exact ⟨m, List.mem_cons_of_mem _ hm, he2⟩

lemma dedupNodes_covers (l : List NodeRec) :
    ∀ x ∈ l, ∃ m, m ∈ dedupNodes l ∧ m.id = x.id :=
  fun x hx => dedupNodesAux_covers l [] x hx rfl

/-- C3: `Dedup()` collapses the current set to entities with pairwise
distinct identifiers, preserving first-seen order (the kept entity under
each identifier is the first one seen and the result is an
order-preserving subsequence covering every identifier of the input);
in particular a traversal over two parallel edges between the same
ordered node pair yields the endpoint twice, and exactly once after
`Dedup()`. -/
theorem sky_c3_dedup :
    (∀ l : List NodeRec,
        ((dedupNodes l).map NodeRec.id).Nodup
        ∧ (dedupNodes l).Sublist l
        ∧ (∀ m ∈ dedupNodes l, l.find? (fun x => x.id == m.id) = some m)
        ∧ (∀ x ∈ l, ∃ m, m ∈ dedupNodes l ∧ m.id = x.id))
    ∧ runQuery ovsSnapC3 (0, 0) ovsQueryC3
        = Except.ok (TravResult.nodesR [portNodeC3, portNodeC3])
    ∧ runQuery ovsSnapC3 (0, 0) (ovsQueryC3 ++ [Step.dedupStep])
        = Except.ok (TravResult.nodesR [portNodeC3]) := by
  refine ⟨fun l => ⟨dedupNodes_id_nodup l, dedupNodes_sublist l,
    dedupNodes_first_seen l, dedupNodes_covers l⟩, ?_, ?_⟩ <;> decide

/-- Witness for C3 at a concrete duplicated input. -/
theorem sky_c3_dedup_witness :
    [portNodeC3, portNodeC3].find? (fun x => x.id == portNodeC3.id)
      = some portNodeC3 :=
  (sky_c3_dedup.1 [portNodeC3, portNodeC3]).2.2.1 portNodeC3 (by decide)

/-- A `V().Has(...)` chain evaluates without error to the filtered live
node set. -/
lemma runQuery_v_has (s : Snap) (w : Nat × Nat)
    (pairs : List (List String × FilterVal)) :
    runQuery s w [Step.vStep, Step.hasStep pairs]
      = Except.ok (TravResult.nodesR
          ((liveNodes s).filter (fun n => nodeMatches n pairs))) := rfl

/-- Membership in the filtered live node set. -/
lemma mem_v_has (s : Snap) (pairs : List (List String × FilterVal)) (n : NodeRec) :
    n ∈ (liveNodes s).filter (fun n => nodeMatches n pairs)
      ↔ n ∈ s.nodes ∧ n.deletedAt = none ∧ nodeMatches n pairs = true := by
  rw [List.mem_filter, liveNodes, List.mem_filter]
  constructor
  · rintro ⟨⟨h1, h2⟩, h3⟩
    exact ⟨h1, Option.isNone_iff_eq_none.mp h2, h3⟩
  · rintro ⟨h1, h2, h3⟩
    exact ⟨⟨h1, by rw [h2]; rfl⟩, h3⟩

/-- C6: every `Has(k, v)` step is total — a `V().Has(...)` chain always
evaluates to an ok node list (never an error), and the list holds exactly
the live entries whose metadata matches every pair; on a concrete
snapshot where the literal `123` (a number) meets a string-typed stored
value, that entry is merely excluded while the matching entry is still
returned. -/
theorem sky_c6_has_total :
    (∀ (s : Snap) (w : Nat × Nat) (pairs : List (List String × FilterVal)),
        ∃ l, runQuery s w [Step.vStep, Step.hasStep pairs]
            = Except.ok (TravResult.nodesR l)
          ∧ ∀ n, n ∈ l ↔ (n ∈ s.nodes ∧ n.deletedAt = none
              ∧ nodeMatches n pairs = true))
    ∧ runQuery mismatchSnapC6 (0, 0)
        [Step.vStep, Step.hasStep [(["Name"], FilterVal.feq (Value.vInt 123))]]
        = Except.ok (TravResult.nodesR [numNodeC6]) := by
  constructor
  · intro s w pairs
    exact ⟨(liveNodes s).filter (fun n => nodeMatches n pairs),
      runQuery_v_has s w pairs, fun n => mem_v_has s pairs n⟩
  · decide

/-- C9: when the metadata value at path `k` is a sequence, `Has(k, v)`
matches an entry as soon as some element of the sequence equals the
literal; a live node carrying the sequence is returned by the query; and
the node with `A.B.D = [1, 2, 3]` is found by `Has("A.B.D", 1)`. -/
theorem sky_c9_seq_member :
    (∀ (meta : List (String × Value)) (path : List String)
        (xs : List Value) (v : Value),
        getAt meta path = some (Value.vSeq xs) → v ∈ xs →
        filterMatches meta path (FilterVal.feq v) = true)
    ∧ (∀ (s : Snap) (w : Nat × Nat) (n : NodeRec) (path : List String)
        (xs : List Value) (v : Value),
        n ∈ s.nodes → n.deletedAt = none →
        getAt n.metadata path = some (Value.vSeq xs) → v ∈ xs →
        ∃ l, runQuery s w [Step.vStep, Step.hasStep [(path, FilterVal.feq v)]]
            = Except.ok (TravResult.nodesR l) ∧ n ∈ l)
    ∧ runQuery seqSnapC9 (0, 0)
        [Step.vStep, Step.hasStep [(["A", "B", "D"], FilterVal.feq (Value.vInt 1))]]
        = Except.ok (TravResult.nodesR [seqNodeC9]) := by
  have hmatch : ∀ (meta : List (String × Value)) (path : List String)
      (xs : List Value) (v : Value),
      getAt meta path = some (Value.vSeq xs) → v ∈ xs →
      filterMatches meta path (FilterVal.feq v) = true := by
    intro meta path xs v hget hmem
    simp only [filterMatches]
    rw [hget]
    simp only [valueMatches]
    rw [Bool.or_eq_true]
    refine Or.inr ?_
    rw [List.any_eq_true]
    exact ⟨v, hmem, by simp⟩
  refine ⟨hmatch, ?_, by decide⟩
  intro s w n path xs v hn hlive hget hmem
  refine ⟨(liveNodes s).filter (fun m => nodeMatches m [(path, FilterVal.feq v)]),
    runQuery_v_has s w _, ?_⟩
  refine (mem_v_has s _ n).mpr ⟨hn, hlive, ?_⟩
  simp only [nodeMatches, List.all_cons, List.all_nil, Bool.and_true]
  exact hmatch n.metadata path xs v hget hmem

/-- Witness for C9 at the `TestQueryMetadata` document. -/
theorem sky_c9_seq_member_witness :
    filterMatches seqMetaC9 ["A", "B", "D"] (FilterVal.feq (Value.vInt 1)) = true :=
  sky_c9_seq_member.1 seqMetaC9 ["A", "B", "D"]
    [Value.vInt 1, Value.vInt 2, Value.vInt 3] (Value.vInt 1)
    (by decide) (by decide)

/-- A single evaluation step never fails with the not-found condition
(that condition belongs to the "get exactly one" client forms only). -/
lemma evalStep_ne_notFound (s : Snap) (w : Nat × Nat) (r : TravResult) (st : Step) :
    evalStep s w r st ≠ Except.error QErr.notFound := by
  cases r <;> cases st <;> simp [evalStep]

/-- Chain evaluation never fails with the not-found condition. -/
lemma evalQuery_ne_notFound (s : Snap) (w : Nat × Nat) (steps : List Step) :
    ∀ r, evalQuery s w r steps ≠ Except.error QErr.notFound := by
  induction steps with
  | nil =>
    intro r h
    rw [evalQuery] at h
    cases h
  | cons st rest ih =>
    intro r h
    rw [evalQuery] at h
    cases he : evalStep s w r st with
    | ok r2 =>
      rw [he] at h
      exact ih r2 h
    | error e =>
      rw [he] at h
      injection h with h2
      subst h2
      exact evalStep_ne_notFound s w r st he

lemma getNodes_ne_notFound (s : Snap) (w : Nat × Nat) (steps : List Step) :
    getNodes s w steps ≠ Except.error QErr.notFound := by
  intro h
  rw [getNodes] at h
  cases hr : runQuery s w steps with
  | ok r =>
    rw [hr] at h
    cases r <;> simp at h
  | error e =>
    rw [hr] at h
    injection h with h2
    subst h2
    exact evalQuery_ne_notFound s w steps TravResult.startR hr

lemma getMetrics_ne_notFound (s : Snap) (w : Nat × Nat) (steps : List Step) :
    getMetrics s w steps ≠ Except.error QErr.notFound := by
  intro h
  rw [getMetrics] at h
  cases hr : runQuery s w steps with
  | ok r =>
    rw [hr] at h
    cases r <;> simp at h
  | error e =>
    rw [hr] at h
    injection h with h2
    subst h2
    exact evalQuery_ne_notFound s w steps TravResult.startR hr

/-- C7: the "get exactly one" forms (`GetNode` / `GetMetric`) fail with
the not-found condition exactly when the corresponding multi-result form
matches nothing, and otherwise return precisely the first element of the
multi-result form. -/
theorem sky_c7_get_one :
    ∀ (s : Snap) (w : Nat × Nat) (steps : List Step),
      (getNode s w steps = Except.error QErr.notFound
          ↔ getNodes s w steps = Except.ok [])
      ∧ (∀ l, getNodes s w steps = Except.ok l → l ≠ [] →
          ∃ n, getNode s w steps = Except.ok n ∧ l.head? = some n)
      ∧ (getMetric s w steps = Except.error QErr.notFound
          ↔ getMetrics s w steps = Except.ok [])
      ∧ (∀ l, getMetrics s w steps = Except.ok l → l ≠ [] →
          ∃ m, getMetric s w steps = Except.ok m ∧ l.head? = some m) := by
  intro s w steps
  refine ⟨?_, ?_, ?_, ?_⟩
  · cases hn : getNodes s w steps with
    | ok l =>
      cases l with
      | nil => simp [getNode, hn]
      | cons n t => simp [getNode, hn]
    | error e =>
      have hne : ¬(e = QErr.notFound) := by
        intro he
        subst he
        exact getNodes_ne_notFound s w steps hn
      simp [getNode, hn, hne]
  · intro l hl hne
    cases l with
    | nil => exact absurd rfl hne
    | cons n t => exact ⟨n, by simp [getNode, hl], rfl⟩
  · cases hn : getMetrics s w steps with
    | ok l =>
      cases l with
      | nil => simp [getMetric, hn]
      | cons m t => simp [getMetric, hn]
    | error e =>
      have hne : ¬(e = QErr.notFound) := by
        intro he
        subst he
        exact getMetrics_ne_notFound s w steps hn
      simp [getMetric, hn, hne]
  · intro l hl hne
    cases l with
    | nil => exact absurd rfl hne
    | cons m t => exact ⟨m, by simp [getMetric, hl], rfl⟩

/-- Witness for C7: not-found on an empty store, first element on a
populated one. -/
theorem sky_c7_get_one_witness :
    (getNode emptySnapC7 (0, 0) [Step.vStep] = Except.error QErr.notFound)
    ∧ (∃ n, getNode seqSnapC9 (0, 0) [Step.vStep] = Except.ok n
        ∧ [seqNodeC9].head? = some n) :=
  ⟨(sky_c7_get_one emptySnapC7 (0, 0) [Step.vStep]).1.mpr (by decide),
    (sky_c7_get_one seqSnapC9 (0, 0) [Step.vStep]).2.1 [seqNodeC9] (by decide)
      (by decide)⟩

/-- C1: a time-context query considers an entity present at `T` iff its
creation timestamp is ≤ `T` and its deletion timestamp is absent or
greater than `T`, and its metadata at `T` is the in-order merge of the
patches with timestamp ≤ `T`; in particular, for a node created at
`T1 = 100` and deleted at `T2 = 200`, a query at the current context
(`T2`) returns no node while a query at `T1` does, and a patch applied
at `150` is visible in the projection at `160` but not at `120`. -/
theorem sky_c1_history :
    (∀ (log : List GraphOp) (id : String) (T : Nat),
        shapeOps (opsOf log id) = true →
        (presentAt log id T = presentSpec log id T
          ∧ (nodeAt log id T).map NodeRec.metadata = metaSpec log id T))
    ∧ presentAt logC1 "X" 200 = false
    ∧ presentAt logC1 "X" 100 = true
    ∧ (nodeAt logC1 "X" 160).map NodeRec.metadata
        = some [("Name", Value.vStr "eth0"), ("MAC", Value.vStr "00:00:00:00:00:aa")]
    ∧ (nodeAt logC1 "X" 120).map NodeRec.metadata
        = some [("Name", Value.vStr "eth0")] := by
  refine ⟨fun log id T h => nodeHistory_correct log id T h, ?_, ?_, ?_, ?_⟩ <;> decide

/-- Witness for C1 at the concrete scenario log. -/
theorem sky_c1_history_witness :
    presentAt logC1 "X" 150 = presentSpec logC1 "X" 150 :=
  ((sky_c1_history.1 logC1 "X" 150) (by decide)).1

lemma mem_insertMetric (m : MetricRec) (l : List MetricRec) (x : MetricRec) :
    x ∈ insertMetric m l → x = m ∨ x ∈ l := by
  induction l with
  | nil =>
    intro h
    rw [insertMetric] at h
    rcases List.mem_singleton.mp h with h1
    exact Or.inl h1
  | cons y ys ih =>
    intro h
    rw [insertMetric] at h
    by_cases hc : y.mstart ≤ m.mstart
    · rw [if_pos hc] at h
      rcases List.mem_cons.mp h with h1 | h2
      · exact Or.inr (h1 ▸ List.mem_cons_self y ys)
      · rcases ih h2 with h3 | h4
        · exact Or.inl h3
        · exact Or.inr (List.mem_cons_of_mem y h4)
    · rw [if_neg hc] at h
      rcases List.mem_cons.mp h with h1 | h2
      · exact Or.inl h1
      · exact Or.inr h2

lemma pairwise_insertMetric (m : MetricRec) (l : List MetricRec)
    (h : l.Pairwise (fun a b => a.mstart ≤ b.mstart)) :
    (insertMetric m l).Pairwise (fun a b => a.mstart ≤ b.mstart) := by
  induction l with
  | nil => simp [insertMetric]
  | cons y ys ih =>
    rw [insertMetric]
    rcases List.pairwise_cons.mp h with ⟨hy, hys⟩
    by_cases hc : y.mstart ≤ m.mstart
    · rw [if_pos hc]
      refine List.pairwise_cons.mpr ⟨?_, ih hys⟩
      intro x hx
      rcases mem_insertMetric m ys x hx with h1 | h2
      · rw [h1]; exact hc
      · exact hy x h2
    · rw [if_neg hc]
      have hm : m.mstart ≤ y.mstart := Nat.le_of_lt (Nat.lt_of_not_le hc)
      refine List.pairwise_cons.mpr ⟨?_, h⟩
      intro x hx
      rcases List.mem_cons.mp hx with h1 | h2
      · rw [h1]; exact hm
      · exact Nat.le_trans hm (hy x h2)

lemma sortByStart_sorted_aux (l : List MetricRec) :
    ∀ acc, acc.Pairwise (fun a b => a.mstart ≤ b.mstart) →
      (l.foldl (fun acc m => insertMetric m acc) acc).Pairwise
        (fun a b => a.mstart ≤ b.mstart) := by
  induction l with
  | nil => intro acc h; exact h
  | cons m rest ih =>
    intro acc h
    rw [List.foldl_cons]
    exact ih _ (pairwise_insertMetric m acc h)

/-- The merged, bucketed series is sorted by start timestamp. -/
lemma sortByStart_sorted (l : List MetricRec) :
    (sortByStart l).Pairwise (fun a b => a.mstart ≤ b.mstart) :=
  sortByStart_sorted_aux l [] List.Pairwise.nil

lemma evalStep_aggSorted (s : Snap) (w : Nat × Nat) (r : TravResult) (st : Step)
    (r2 : TravResult) (h : evalStep s w r st = Except.ok r2) :
    aggSorted r → aggSorted r2 := by
  intro hr
  cases r <;> cases st <;> simp [evalStep] at h <;> rw [← h] <;>
    first
      | trivial
      | exact sortByStart_sorted _

lemma evalQuery_aggSorted (s : Snap) (w : Nat × Nat) (steps : List Step) :
    ∀ r r2, evalQuery s w r steps = Except.ok r2 → aggSorted r → aggSorted r2 := by
  induction steps with
  | nil =>
    intro r r2 h hr
    rw [evalQuery] at h
    injection h with h2
    rw [← h2]
    exact hr
  | cons st rest ih =>
    intro r r2 h hr
    rw [evalQuery] at h
    cases he : evalStep s w r st with
    | ok rm =>
      rw [he] at h
      exact ih rm r2 h (evalStep_aggSorted s w r st rm he hr)
    | error e =>
      rw [he] at h
      cases h

/-- C4: any aggregated series a query returns is ordered so that start
timestamps are non-decreasing across the merged output — no returned
record's start precedes the start of a record returned before it; and
the merge-sort of any per-node sequences satisfies the same bound. -/
theorem sky_c4_aggregates_sorted :
    (∀ (s : Snap) (w : Nat × Nat) (steps : List Step) (l : List MetricRec),
        runQuery s w steps = Except.ok (TravResult.aggR l) →
        l.Pairwise (fun a b => a.mstart ≤ b.mstart))
    ∧ (∀ ls : List (List MetricRec),
        (sortByStart ls.flatten).Pairwise (fun a b => a.mstart ≤ b.mstart)) := by
  constructor
  · intro s w steps l h
    exact evalQuery_aggSorted s w steps TravResult.startR (TravResult.aggR l) h
      trivial
  · intro ls
    exact sortByStart_sorted _

/-- Witness for C4 on the `TestInterfaceMetrics` scenario. -/
theorem sky_c4_aggregates_sorted_witness :
    loMetricsC45.Pairwise (fun a b => a.mstart ≤ b.mstart) :=
  sky_c4_aggregates_sorted.1 metricsSnapC45 (0, 10000) metricsQueryC45
    loMetricsC45 (by decide)

lemma foldl_combine_tx (rest : List MetricRec) :
    ∀ a, (rest.foldl combineMetrics a).txPackets
      = a.txPackets + (rest.map MetricRec.txPackets).sum := by
  induction rest with
  | nil => intro a; simp
  | cons m t ih =>
    intro a
    rw [List.foldl_cons, ih, List.map_cons, List.sum_cons]
    simp [combineMetrics]
    omega

lemma foldl_combine_rx (rest : List MetricRec) :
    ∀ a, (rest.foldl combineMetrics a).rxPackets
      = a.rxPackets + (rest.map MetricRec.rxPackets).sum := by
  induction rest with
  | nil => intro a; simp
  | cons m t ih =>
    intro a
    rw [List.foldl_cons, ih, List.map_cons, List.sum_cons]
    simp [combineMetrics]
    omega

lemma foldl_combine_span (rest : List MetricRec) :
    ∀ a, ((rest.foldl combineMetrics a).mstart ≤ a.mstart
        ∧ (∀ x ∈ rest, (rest.foldl combineMetrics a).mstart ≤ x.mstart)
        ∧ ((rest.foldl combineMetrics a).mstart = a.mstart
            ∨ ∃ x ∈ rest, (rest.foldl combineMetrics a).mstart = x.mstart))
      ∧ (a.mlast ≤ (rest.foldl combineMetrics a).mlast
        ∧ (∀ x ∈ rest, x.mlast ≤ (rest.foldl combineMetrics a).mlast)
        ∧ ((rest.foldl combineMetrics a).mlast = a.mlast
            ∨ ∃ x ∈ rest, (rest.foldl combineMetrics a).mlast = x.mlast)) := by
  induction rest with
  | nil => intro a; simp
  | cons m t ih =>
    intro a
    rw [List.foldl_cons]
    rcases ih (combineMetrics a m) with ⟨⟨hs1, hs2, hs3⟩, hl1, hl2, hl3⟩
    have hsa : (combineMetrics a m).mstart = min a.mstart m.mstart := rfl
    have hla : (combineMetrics a m).mlast = max a.mlast m.mlast := rfl
    refine ⟨⟨?_, ?_, ?_⟩, ?_, ?_, ?_⟩
    · exact le_trans hs1 (by rw [hsa]; exact Nat.min_le_left _ _)
    · intro x hx
      rcases List.mem_cons.mp hx with h | h
      · subst h
        exact le_trans hs1 (by rw [hsa]; exact Nat.min_le_right _ _)
      · exact hs2 x h
    · rcases hs3 with h | ⟨x, hx, he⟩
      · rw [h, hsa]
        rcases Nat.le_total a.mstart m.mstart with hc | hc
        · exact Or.inl (Nat.min_eq_left hc)
        · exact Or.inr ⟨m, List.mem_cons_self m t, Nat.min_eq_right hc⟩
      · exact Or.inr ⟨x, List.mem_cons_of_mem _ hx, he⟩
    · exact le_trans (by rw [hla]; exact Nat.le_max_left _ _) hl1
    · intro x hx
      rcases List.mem_cons.mp hx with h | h
      · subst h
        exact le_trans (by rw [hla]; exact Nat.le_max_right _ _) hl1
      · exact hl2 x h
    · rcases hl3 with h | ⟨x, hx, he⟩
      · rw [h, hla]
        rcases Nat.le_total a.mlast m.mlast with hc | hc
        · exact Or.inr ⟨m, List.mem_cons_self m t, Nat.max_eq_right hc⟩
        · exact Or.inl (Nat.max_eq_left hc)
      · exact Or.inr ⟨x, List.mem_cons_of_mem _ hx, he⟩

/-- C5: `Sum()` returns one record whose counters are the field-wise sums
over the whole series and whose start/end span the series' full range;
in the reference scenario of 15 events of 2 counted packets each, the
summed transmitted-packet counter is 30, equal to the sum over the
individual aggregated records. -/
theorem sky_c5_sum :
    (∀ l : List MetricRec,
        (sumSeries l).txPackets = (l.map MetricRec.txPackets).sum
        ∧ (sumSeries l).rxPackets = (l.map MetricRec.rxPackets).sum)
    ∧ (∀ (m0 : MetricRec) (rest : List MetricRec),
        (∀ x ∈ m0 :: rest, (sumSeries (m0 :: rest)).mstart ≤ x.mstart
            ∧ x.mlast ≤ (sumSeries (m0 :: rest)).mlast)
        ∧ (∃ x ∈ m0 :: rest, (sumSeries (m0 :: rest)).mstart = x.mstart)
        ∧ (∃ x ∈ m0 :: rest, (sumSeries (m0 :: rest)).mlast = x.mlast))
    ∧ getMetric metricsSnapC45 (0, 10000) (metricsQueryC45 ++ [Step.sumStep])
        = Except.ok sumC45
    ∧ sumC45.txPackets = 30
    ∧ (loMetricsC45.map MetricRec.txPackets).sum = 30 := by
  refine ⟨?_, ?_, by decide, by decide, by decide⟩
  · intro l
    cases l with
    | nil => exact ⟨rfl, rfl⟩
    | cons m rest =>
      constructor
      · rw [sumSeries, foldl_combine_tx, List.map_cons, List.sum_cons]
      · rw [sumSeries, foldl_combine_rx, List.map_cons, List.sum_cons]
  · intro m0 rest
    rcases foldl_combine_span rest m0 with ⟨⟨hs1, hs2, hs3⟩, hl1, hl2, hl3⟩
    refine ⟨?_, ?_, ?_⟩
    · intro x hx
      rcases List.mem_cons.mp hx with h | h
      · subst h
        exact ⟨hs1, hl1⟩
      · exact ⟨hs2 x h, hl2 x h⟩
    · rcases hs3 with h | ⟨x, hx, he⟩
      · exact ⟨m0, List.mem_cons_self m0 rest, h⟩
      · exact ⟨x, List.mem_cons_of_mem _ hx, he⟩
    · rcases hl3 with h | ⟨x, hx, he⟩
      · exact ⟨m0, List.mem_cons_self m0 rest, h⟩
      · exact ⟨x, List.mem_cons_of_mem _ hx, he⟩

/-- Witness for C5 at a concrete two-record series. -/
theorem sky_c5_sum_witness :
    (sumSeries [⟨5, 10, 2, 2⟩, ⟨3, 20, 1, 1⟩]).mstart
        ≤ (MetricRec.mk 5 10 2 2).mstart
    ∧ (MetricRec.mk 5 10 2 2).mlast
        ≤ (sumSeries [⟨5, 10, 2, 2⟩, ⟨3, 20, 1, 1⟩]).mlast :=
  (sky_c5_sum.2.1 ⟨5, 10, 2, 2⟩ [⟨3, 20, 1, 1⟩]).1 ⟨5, 10, 2, 2⟩
    (List.mem_cons_self _ _)

/-- C8: installing an ownership link leaves the child with exactly one
ownership parent, whatever ownership edges existed before; concretely,
each tunnel-type or patch-type interface of the `TestOVSOwnershipLink`
snapshot resolves through incoming ownership edges to exactly its
bridge, and the internal interface resolves to exactly the host. -/
theorem sky_c8_ownership :
    (∀ (s : Snap) (p c e : String),
        ownershipParents (addOwnershipLink s p c e) c = [p])
    ∧ getNodes ownSnapC8 (0, 0) (c8Query "patch-br-owner" brPairsC8)
        = Except.ok [brC8]
    ∧ getNodes ownSnapC8 (0, 0) (c8Query "gre-br-owner" brPairsC8)
        = Except.ok [brC8]
    ∧ getNodes ownSnapC8 (0, 0) (c8Query "vxlan-br-owner" brPairsC8)
        = Except.ok [brC8]
    ∧ getNodes ownSnapC8 (0, 0) (c8Query "geneve-br-owner" brPairsC8)
        = Except.ok [brC8]
    ∧ getNodes ownSnapC8 (0, 0)
        (c8Query "intf-owner" [(["Type"], FilterVal.feq (Value.vStr "host"))])
        = Except.ok [hostC8] := by
  refine ⟨?_, by decide, by decide, by decide, by decide, by decide⟩
  intro s p c e
  rw [addOwnershipLink, ownershipParents]
  simp only []
  rw [List.filter_append]
  have h1 : (s.edges.filter (fun ed => !(ed.child == c && isOwnership ed))).filter
      (fun ed => ed.child == c && isOwnership ed) = [] := by
    rw [List.filter_eq_nil_iff]
    intro x hx
    have h2 := (List.mem_filter.mp hx).2
    intro h3
    rw [h3] at h2
    cases h2
  rw [h1]
  have hown : isOwnership ⟨e, p, c, [("RelationType", Value.vStr "ownership")]⟩
      = true := rfl
  rw [List.filter_cons]
  simp [hown]

lemma k8sFinish_nodes (g : K8sGraph) (nid hostName : String) :
    (k8sFinish g nid hostName).nodes = g.nodes := by
  rw [k8sFinish]
  cases h : hostIndexerGet (linkPodsToNode g nid (podIndexerGet g hostName)) hostName
  · rfl
  · rfl

lemma nodeIndexerGet_nodes_eq (g g2 : K8sGraph) (name : String)
    (h : g2.nodes = g.nodes) : nodeIndexerGet g2 name = nodeIndexerGet g name := by
  rw [nodeIndexerGet, nodeIndexerGet, h]

lemma find_map_setField (m : List (String × Value)) (k k2 : String) (v : Value)
    (h : ¬(k2 = k)) :
    (m.map (fun p => if p.1 == k then (k, v) else p)).find? (fun p => p.1 == k2)
      = m.find? (fun p => p.1 == k2) := by
  induction m with
  | nil => rfl
  | cons q rest ih =>
    rw [List.map_cons]
    by_cases hq : q.1 = k
    · have hb : (q.1 == k) = true := beq_iff_eq.mpr hq
      have hif : (if q.1 == k then (k, v) else q) = (k, v) := by simp [hb]
      rw [hif]
      have h2 : ¬(q.1 = k2) := by rw [hq]; exact fun e => h e.symm
      have hks : ¬(k = k2) := fun e => h e.symm
      rw [List.find?_cons_of_neg _ (by simp [hks]),
        List.find?_cons_of_neg _ (by simp [h2])]
      exact ih
    · have hb : (q.1 == k) = false := by simp [hq]
      have hif : (if q.1 == k then (k, v) else q) = q := by simp [hb]
      rw [hif]
      by_cases hq2 : q.1 = k2
      · rw [List.find?_cons_of_pos _ (by simp [hq2]),
          List.find?_cons_of_pos _ (by simp [hq2])]
      · rw [List.find?_cons_of_neg _ (by simp [hq2]),
          List.find?_cons_of_neg _ (by simp [hq2])]
        exact ih

lemma getAt_single (m : List (String × Value)) (k2 : String) :
    getAt m [k2] = lookupField m k2 := by
  rw [getAt, getPath]
  cases h : lookupField m k2 with
  | some v => rfl
  | none => rfl

lemma getAt_setField_ne (m : List (String × Value)) (k k2 : String) (v : Value)
    (h : ¬(k2 = k)) : getAt (setField m k v) [k2] = getAt m [k2] := by
  rw [getAt_single, getAt_single, setField]
  by_cases hany : m.any (fun p => p.1 == k) = true
  · rw [if_pos hany, lookupField, lookupField, find_map_setField m k k2 v h]
  · rw [if_neg hany, lookupField, lookupField, List.find?_append]
    have hks : ¬(k = k2) := fun e => h e.symm
    have hbf : (k == k2) = false := by simp [hks]
    have hlast : [(k, v)].find? (fun p => p.1 == k2) = none := by
      simp [List.find?, hbf]
    rw [hlast]
    simp

lemma nodeIndexerGet_eq_filter (g : K8sGraph) (name : String) :
    nodeIndexerGet g name = g.nodes.filter (isNodeNamed name) := rfl

lemma isNodeNamed_addMetadata (name nid : String) (d : Value) (n : NodeRec) :
    isNodeNamed name
      (if n.id == nid then
        (⟨n.id, n.host, setField n.metadata "K8s" d,
          n.createdAt, n.updatedAt, n.deletedAt⟩ : NodeRec)
      else n)
      = isNodeNamed name n := by
  by_cases hid : n.id = nid
  · have hb : (n.id == nid) = true := beq_iff_eq.mpr hid
    rw [hb]
    simp only [if_true]
    rw [isNodeNamed, isNodeNamed]
    simp only []
    rw [getAt_setField_ne _ _ _ _ (by decide), getAt_setField_ne _ _ _ _ (by decide)]
  · have hb : (n.id == nid) = false := by simp [hid]
    rw [hb]
    simp

lemma nodeIndexerGet_addMetadata (g : K8sGraph) (nid : String) (d : Value)
    (name : String) :
    (nodeIndexerGet (k8sAddMetadata g nid d) name).length
      = (nodeIndexerGet g name).length := by
  rw [nodeIndexerGet_eq_filter, nodeIndexerGet_eq_filter, k8sAddMetadata]
  simp only []
  rw [List.filter_map, List.length_map]
  congr 1
  apply List.filter_congr
  intro n _
  exact isNodeNamed_addMetadata name nid d n

lemma isNodeNamed_newMetadata (name : String) (uid : String) (d : Value) :
    isNodeNamed name
      (⟨uid, "", k8sNewMetadata "node" name d, 0, 0, none⟩ : NodeRec) = true := by
  rw [isNodeNamed, k8sNewMetadata]
  simp only []
  have h1 : getAt [("Type", Value.vStr "node"), ("Name", Value.vStr name),
      ("K8s", d)] ["Type"] = some (Value.vStr "node") := rfl
  have h2 : getAt [("Type", Value.vStr "node"), ("Name", Value.vStr name),
      ("K8s", d)] ["Name"] = some (Value.vStr name) := rfl
  rw [h1, h2]
  simp

/-- One `onAdd`/`OnUpdate` event keeps at most one graph node filed
under the k8s node's name. -/
lemma onAdd_count (g : K8sGraph) (obj : K8sNodeObj)
    (h : (nodeIndexerGet g obj.name).length ≤ 1) :
    (nodeIndexerGet (onAdd g obj) obj.name).length ≤ 1 := by
  rw [onAdd]
  cases hn : nodeIndexerGet g obj.name with
  | nil =>
    rw [nodeIndexerGet_nodes_eq _ _ _ (k8sFinish_nodes _ _ _)]
    rw [nodeIndexerGet_eq_filter, k8sNewNode]
    simp only []
    rw [List.filter_append]
    rw [nodeIndexerGet_eq_filter] at hn
    rw [hn]
    rw [List.filter_cons, isNodeNamed_newMetadata obj.name obj.uid obj.details]
    simp
  | cons n t =>
    rw [nodeIndexerGet_nodes_eq _ _ _ (k8sFinish_nodes _ _ _)]
    rw [nodeIndexerGet_addMetadata]
    exact h

/-- C10: `onAdd` creates a new graph node only when the name indexer
returns nothing for the k8s node's name and otherwise merges metadata
into the existing node; since `OnUpdate` delegates to `onAdd`, any
sequence of add/update events for one name leaves at most one graph node
filed under that name. -/
theorem sky_c10_upsert :
    ∀ (g : K8sGraph) (name : String) (objs : List K8sNodeObj),
      (∀ o ∈ objs, o.name = name) →
      (nodeIndexerGet g name).length ≤ 1 →
      (nodeIndexerGet (onEvents g objs) name).length ≤ 1 := by
  intro g name objs
  induction objs generalizing g with
  | nil =>
    intro _ h
    exact h
  | cons o rest ih =>
    intro hn h
    rw [onEvents, List.foldl_cons]
    have ho : o.name = name := hn o (List.mem_cons_self o rest)
    have h2 : (nodeIndexerGet (onAdd g o) name).length ≤ 1 := by
      rw [← ho] at h ⊢
      exact onAdd_count g o h
    exact ih (onAdd g o) (fun x hx => hn x (List.mem_cons_of_mem o hx)) h2

/-- Witness for C10: two events for the same name starting from the empty
graph leave one filed node. -/
theorem sky_c10_upsert_witness :
    (nodeIndexerGet
      (onEvents ⟨[], []⟩
        [⟨"uid1", "k8s-node-1", Value.vInt 1⟩, ⟨"uid2", "k8s-node-1", Value.vInt 2⟩])
      "k8s-node-1").length ≤ 1 :=
  sky_c10_upsert ⟨[], []⟩ "k8s-node-1"
    [⟨"uid1", "k8s-node-1", Value.vInt 1⟩, ⟨"uid2", "k8s-node-1", Value.vInt 2⟩]
    (by decide) (by decide)

lemma nodup_id_inj (l : List NodeRec) (h : (l.map NodeRec.id).Nodup) :
    ∀ a ∈ l, ∀ b ∈ l, a.id = b.id → a = b := by
  induction l with
  | nil => intro a ha; cases ha
  | cons x xs ih =>
    rw [List.map_cons, List.nodup_cons] at h
    intro a ha b hb he
    rcases List.mem_cons.mp ha with h1 | h1 <;>
      rcases List.mem_cons.mp hb with h2 | h2
    · rw [h1, h2]
    · subst h1
      exact absurd (List.mem_map.mpr ⟨b, h2, he.symm⟩) h.1
    · subst h2
      exact absurd (List.mem_map.mpr ⟨a, h1, he⟩) h.1
    · exact ih h.2 a h1 b h2 he

lemma mem_idxRemove (idx : IdxTable) (id : String) (p : Value × NodeRec) :
    p ∈ idxRemove idx id ↔ p ∈ idx ∧ ¬(p.2.id = id) := by
  rw [idxRemove, List.mem_filter]
  constructor
  · rintro ⟨h1, h2⟩
    refine ⟨h1, ?_⟩
    intro he
    rw [he] at h2
    simp at h2
  · rintro ⟨h1, h2⟩
    exact ⟨h1, by simp [h2]⟩

lemma idxUpsert_inv_mem (pred : List (String × Value)) (key : String)
    (idx : IdxTable) (n : NodeRec) (p : Value × NodeRec) :
    p ∈ idxUpsert pred key idx n →
      (p ∈ idx ∧ ¬(p.2.id = n.id))
      ∨ (p = (p.1, n) ∧ idxPred pred n = true ∧ projVal key n = some p.1) := by
  rw [idxUpsert]
  cases hc : (if idxPred pred n then projVal key n else none) with
  | none =>
    intro h
    exact Or.inl ((mem_idxRemove idx n.id p).mp h)
  | some v =>
    intro h
    rcases List.mem_append.mp h with h1 | h1
    · exact Or.inl ((mem_idxRemove idx n.id p).mp h1)
    · rcases List.mem_singleton.mp h1 with h2
      have hcp : idxPred pred n = true ∧ projVal key n = some v := by
        by_cases hp : idxPred pred n = true
        · rw [if_pos hp] at hc
          exact ⟨hp, hc⟩
        · rw [if_neg hp] at hc
          cases hc
      refine Or.inr ⟨?_, hcp.1, ?_⟩
      · rw [h2]
      · rw [h2]
        exact hcp.2

lemma idxUpsert_mem_new (pred : List (String × Value)) (key : String)
    (idx : IdxTable) (n : NodeRec) (v : Value)
    (hp : idxPred pred n = true) (hv : projVal key n = some v) :
    (v, n) ∈ idxUpsert pred key idx n := by
  rw [idxUpsert, if_pos hp, hv]
  exact List.mem_append.mpr (Or.inr (List.mem_singleton.mpr rfl))

lemma idxUpsert_mem_old (pred : List (String × Value)) (key : String)
    (idx : IdxTable) (n : NodeRec) (p : Value × NodeRec)
    (hmem : p ∈ idx) (hne : ¬(p.2.id = n.id)) :
    p ∈ idxUpsert pred key idx n := by
  rw [idxUpsert]
  cases hc : (if idxPred pred n then projVal key n else none) with
  | none => exact (mem_idxRemove idx n.id p).mpr ⟨hmem, hne⟩
  | some v =>
    exact List.mem_append.mpr (Or.inl ((mem_idxRemove idx n.id p).mpr ⟨hmem, hne⟩))

lemma sysStep_inv (pred : List (String × Value)) (key : String)
    (σ : SysState) (m : Mut) (h : IdxInv pred key σ) :
    IdxInv pred key (sysStep pred key σ m) := by
  rcases h with ⟨hA, hB, hC⟩
  cases m with
  | addM n =>
    rw [sysStep]
    by_cases hany : σ.1.any (fun o => o.id == n.id) = true
    · rw [if_pos hany]
      exact ⟨hA, hB, hC⟩
    · rw [if_neg hany]
      have hfresh : ∀ o ∈ σ.1, ¬(o.id = n.id) := by
        intro o ho he
        exact hany (List.any_eq_true.mpr ⟨o, ho, by simp [he]⟩)
      refine ⟨?_, ?_, ?_⟩
      · intro p hp
        rcases idxUpsert_inv_mem pred key σ.2 n p hp with ⟨h1, _⟩ | ⟨h1, h2, h3⟩
        · rcases hA p h1 with ⟨hm, hpr, hpj⟩
          exact ⟨List.mem_append.mpr (Or.inl hm), hpr, hpj⟩
        · refine ⟨?_, ?_, ?_⟩
          · rw [h1]
            exact List.mem_append.mpr (Or.inr (List.mem_singleton.mpr rfl))
          · rw [h1]
            exact h2
          · rw [h1]
            exact h3
      · intro o ho hpr v hpj
        rcases List.mem_append.mp ho with h1 | h1
        · have := hB o h1 hpr v hpj
          exact idxUpsert_mem_old pred key σ.2 n (v, o) this (hfresh o h1)
        · rcases List.mem_singleton.mp h1 with h2
          subst h2
          exact idxUpsert_mem_new pred key σ.2 o v hpr hpj
      · rw [List.map_append]
        refine List.Nodup.append hC (by simp) ?_
        intro x hx1 hx2
        rcases List.mem_map.mp hx1 with ⟨o, ho, he⟩
        rcases List.mem_singleton.mp (by simpa using hx2) with h2
        exact hfresh o ho (he.trans h2)
  | updM id patch =>
    rw [sysStep]
    cases hf : σ.1.find? (fun o => o.id == id) with
    | none => exact ⟨hA, hB, hC⟩
    | some old =>
      have hold_mem : old ∈ σ.1 := List.mem_of_find?_eq_some hf
      have hold_id : old.id = id := by
        have := List.find?_some hf
        simpa using this
      have hmerge_id : (mergeNode old patch).id = old.id := rfl
      have hmap_id : ∀ o : NodeRec,
          ((if o.id == id then mergeNode old patch else o) : NodeRec).id = o.id := by
        intro o
        by_cases ho : o.id = id
        · rw [if_pos (beq_iff_eq.mpr ho)]
          rw [hmerge_id, hold_id, ho]
        · rw [if_neg (by simp [ho])]
      have hnodup2 : ((σ.1.map
          (fun o => if o.id == id then mergeNode old patch else o)).map
            NodeRec.id).Nodup := by
        rw [List.map_map]
        have : (σ.1.map (NodeRec.id ∘ fun o =>
            if o.id == id then mergeNode old patch else o)) = σ.1.map NodeRec.id := by
          apply List.map_congr_left
          intro o _
          exact hmap_id o
        rw [this]
        exact hC
      refine ⟨?_, ?_, hnodup2⟩
      · intro p hp
        rcases idxUpsert_inv_mem pred key σ.2 (mergeNode old patch) p hp
          with ⟨h1, h2⟩ | ⟨h1, h2, h3⟩
        · rcases hA p h1 with ⟨hm, hpr, hpj⟩
          refine ⟨?_, hpr, hpj⟩
          refine List.mem_map.mpr ⟨p.2, hm, ?_⟩
          rw [if_neg]
          intro hc
          have : p.2.id = id := by simpa using hc
          rw [hmerge_id, hold_id] at h2
          exact h2 this
        · have hp2 : p.2 = mergeNode old patch := by rw [h1]
          refine ⟨?_, ?_, ?_⟩
          · refine List.mem_map.mpr ⟨old, hold_mem, ?_⟩
            rw [if_pos (beq_iff_eq.mpr hold_id)]
            rw [hp2]
          · rw [hp2]
            exact h2
          · rw [hp2]
            exact h3
      · intro o ho hpr v hpj
        rcases List.mem_map.mp ho with ⟨o0, ho0, he⟩
        by_cases hid : o0.id = id
        · have ho0old : o0 = old := nodup_id_inj σ.1 hC o0 ho0 old hold_mem
            (by rw [hid, hold_id])
          rw [← he, ho0old, if_pos (beq_iff_eq.mpr hold_id)] at hpr hpj ⊢
          exact idxUpsert_mem_new pred key σ.2 (mergeNode old patch) v hpr hpj
        · rw [← he, if_neg (by simp [hid])] at hpr hpj ⊢
          have := hB o0 ho0 hpr v hpj
          refine idxUpsert_mem_old pred key σ.2 (mergeNode old patch) (v, o0) this ?_
          rw [hmerge_id, hold_id]
          exact hid
  | delM id =>
    rw [sysStep]
    refine ⟨?_, ?_, ?_⟩
    · intro p hp
      rcases (mem_idxRemove σ.2 id p).mp hp with ⟨h1, h2⟩
      rcases hA p h1 with ⟨hm, hpr, hpj⟩
      refine ⟨?_, hpr, hpj⟩
      exact List.mem_filter.mpr ⟨hm, by simp [h2]⟩
    · intro o ho hpr v hpj
      rcases List.mem_filter.mp ho with ⟨h1, h2⟩
      have hne : ¬(o.id = id) := by
        intro he
        rw [he] at h2
        simp at h2
      exact (mem_idxRemove σ.2 id (v, o)).mpr ⟨hB o h1 hpr v hpj, hne⟩
    · have : (σ.1.filter (fun o => !(o.id == id))).map NodeRec.id |>.Sublist
          (σ.1.map NodeRec.id) :=
        List.Sublist.map NodeRec.id (List.filter_sublist σ.1)
      exact List.Nodup.sublist this hC

lemma foldl_sysStep_inv (pred : List (String × Value)) (key : String)
    (ms : List Mut) :
    ∀ σ, IdxInv pred key σ → IdxInv pred key (ms.foldl (sysStep pred key) σ) := by
  induction ms with
  | nil => intro σ h; exact h
  | cons m rest ih =>
    intro σ h
    rw [List.foldl_cons]
    exact ih _ (sysStep_inv pred key σ m h)

lemma sysRun_inv (pred : List (String × Value)) (key : String) (ms : List Mut) :
    IdxInv pred key (sysRun pred key ms) := by
  apply foldl_sysStep_inv
  refine ⟨?_, ?_, ?_⟩
  · intro p hp
    cases hp
  · intro n hn
    cases hn
  · exact List.Pairwise.nil

/-- C2: after any finite mutation sequence driving the store and the
listener-fed indexer from the empty state, `Get(keyValue)` holds exactly
the live nodes that satisfy the predicate and whose projection key
currently equals the key value — the indexer's state equals a full
predicate-plus-projection scan of the live store. -/
theorem sky_c2_indexer :
    ∀ (pred : List (String × Value)) (key : String) (ms : List Mut)
      (v : Value) (n : NodeRec),
      n ∈ idxGet (sysRun pred key ms).2 v
        ↔ n ∈ scanGet pred key (sysRun pred key ms).1 v := by
  intro pred key ms v n
  rcases sysRun_inv pred key ms with ⟨hA, hB, _⟩
  constructor
  · intro h
    rw [idxGet] at h
    rcases List.mem_map.mp h with ⟨p, hp, hpn⟩
    have hpv : p.1 = v := by
      have := (List.mem_filter.mp hp).2
      simpa using this
    rcases hA p (List.mem_filter.mp hp).1 with ⟨hmem, hpred, hproj⟩
    rw [scanGet, List.mem_filter]
    refine ⟨by rw [← hpn]; exact hmem, ?_⟩
    rw [← hpn]
    rw [hpred]
    simp only [Bool.true_and]
    rw [hproj, hpv]
    simp
  · intro h
    rw [scanGet, List.mem_filter] at h
    rcases h with ⟨hmem, hcond⟩
    rw [Bool.and_eq_true] at hcond
    rcases hcond with ⟨hpred, hproj⟩
    have hproj2 : projVal key n = some v := by simpa using hproj
    have hidx := hB n hmem hpred v hproj2
    rw [idxGet]
    exact List.mem_map.mpr ⟨(v, n), List.mem_filter.mpr ⟨hidx, by simp⟩, rfl⟩
